import Mathlib

/-!
Verification of the pact-reference path-expression, matching-rule and codec
model against its Rust sources (`pact_models` and `pact_matching` crates).

Shallow embedding conventions:
* Rust iterator loops become structural recursion over `List Char`; where the
  source loop is bounded by an argument the Lean function takes explicit fuel
  equal to that bound, and the fuel-exhaustion branch is unreachable.
* Rust machine integers are modelled as `Nat`/`Int` with explicit bounds
  (`2 ^ 64` for `usize`/`u64`) where the source checks for overflow.
* Rust `Result`/panic become `Except String`; a panic branch is modelled as an
  error value marked as a panic in the message.
* Unicode character classes (`char::is_alphabetic`, `char::is_numeric`,
  whitespace trimming, lower-casing) are modelled on their ASCII fragment;
  every claim below only exercises ASCII data.
-/

namespace PactSpec

/-- Decidable equality for `Except` results (used to evaluate the embedded
fallible functions on concrete inputs). -/
instance {ε α : Type} [DecidableEq ε] [DecidableEq α] : DecidableEq (Except ε α) := by
  intro a b
  cases a <;> cases b
  case error.error e1 e2 =>
    exact decidable_of_iff (e1 = e2) (by simp)
  case error.ok e1 v2 =>
    exact isFalse (by simp)
  case ok.error v1 e2 =>
    exact isFalse (by simp)
  case ok.ok v1 v2 =>
    exact decidable_of_iff (v1 = v2) (by simp)

/-- The single-quote character. Kept as a named constant because it occurs
in the path-expression syntax both as a delimiter and as escaped content. -/
def quoteChar : Char := Char.ofNat 39

/-- The backslash character used by the path renderer to escape keys. -/
def backslashChar : Char := Char.ofNat 92

/-! ## Path tokens (`pact_models::path_exp`) -/

/-- `PathToken` from `path_exp.rs`: `Root | Field(String) | Index(usize) |
Star | StarIndex`. -/
inductive PathToken where
  | root : PathToken
  | field : String → PathToken
  | index : Nat → PathToken
  | star : PathToken
  | starIndex : PathToken
deriving DecidableEq, Repr

/-- Value of a list of decimal digit characters, accumulator style
(mirrors the accumulation done by Rust `usize::from_str`). Returns `none`
if a non-digit is hit. -/
def decDigitsVal : List Char → Nat → Option Nat
  | [], acc => some acc
  | c :: cs, acc =>
    if c.isDigit then decDigitsVal cs (acc * 10 + (c.toNat - 48)) else none

/-- Rust `str::parse::<usize>()`: an optional leading plus sign followed by at
least one ASCII digit, rejecting values that overflow the 64-bit `usize`.
A minus sign is rejected for unsigned types. -/
def parseUsize (s : String) : Option Nat :=
  let core : List Char → Option Nat := fun l =>
    match l with
    | [] => none
    | _ =>
      match decDigitsVal l 0 with
      | some v => if v < 2 ^ 64 then some v else none
      | none => none
  match s.data with
  | [] => none
  | '+' :: rest => core rest
  | l => core l

/-- `matches_token` from `path_exp.rs` lines 62-81: the per-token weight of a
concrete path fragment. The Rust `match` guards fall through to the final
`_ => 0` arm when the guard fails. -/
def matchesToken (pathFragment : String) (pathToken : PathToken) : Nat :=
  match pathToken with
  | .root => if pathFragment = "$" then 2 else 0
  | .field name => if pathFragment = name then 2 else 0
  | .index index =>
    match parseUsize pathFragment with
    | some i => if index = i then 2 else 0
    | none => 0
  | .starIndex =>
    if pathFragment = "[*]" then 1
    else
      match parseUsize pathFragment with
      | some _ => 1
      | none => 0
  | .star => 1

/-- `DocPath::path_weight` from `path_exp.rs` lines 190-207: the product of
the per-token weights when the concrete path is long enough, zero otherwise,
paired with the number of tokens. -/
def pathWeight (pathTokens : List PathToken) (path : List String) : Nat × Nat :=
  if path.length ≥ pathTokens.length then
    ((pathTokens.zip path).foldl (fun acc tf => acc * matchesToken tf.2 tf.1) 1,
      pathTokens.length)
  else
    (0, pathTokens.length)

/-- `DocPath::matches_path`: the calculated weight is greater than zero. -/
def matchesPath (pathTokens : List PathToken) (path : List String) : Bool :=
  (pathWeight pathTokens path).1 > 0

/-! ## Path rendering (`DocPath::build_expr`, `write_obj_key_for_path`) -/

/-- The `IDENT` regex of `path_exp.rs`: `^[_A-Za-z][_A-Za-z0-9]*$`. -/
def isIdentString (s : String) : Bool :=
  match s.data with
  | [] => false
  | c :: cs =>
    (c.isAlpha || c = '_') && cs.all fun d => d.isAlpha || d.isDigit || d = '_'

/-- The `ESCAPE` regex replacement of `write_obj_key_for_path`: prefix every
backslash or single quote with a backslash. -/
def escapeKeyChars : List Char → List Char
  | [] => []
  | c :: cs =>
    if c = backslashChar ∨ c = quoteChar then backslashChar :: c :: escapeKeyChars cs
    else c :: escapeKeyChars cs

/-- Decimal digits of a natural number, most significant first, mirroring the
Rust `Display` for unsigned integers. Structural fuel recursion (`fuel > n`
suffices; `natDigits` below supplies it) so that the kernel can evaluate it. -/
def natDigitsGo : Nat → Nat → List Char
  | 0, _ => []
  | fuel + 1, n =>
    if n < 10 then [Char.ofNat (48 + n)]
    else natDigitsGo fuel (n / 10) ++ [Char.ofNat (48 + n % 10)]

/-- Decimal rendering of a natural number. -/
def natDigits (n : Nat) : List Char := natDigitsGo (n + 1) n

/-- `write_obj_key_for_path` from `path_exp.rs` lines 427-438: identifiers are
rendered with dot syntax, anything else with the escaped `['…']` syntax. -/
def writeObjKeyForPath (key : String) : List Char :=
  if isIdentString key then '.' :: key.data
  else '[' :: quoteChar :: (escapeKeyChars key.data ++ [quoteChar, ']'])

/-- Rendering of one `PathToken`, following the `match` in
`DocPath::build_expr` (`path_exp.rs` lines 357-382). -/
def renderToken : PathToken → List Char
  | .root => ['$']
  | .field v => writeObjKeyForPath v
  | .index i => '[' :: (natDigits i ++ [']'])
  | .star => ['.', '*']
  | .starIndex => ['[', '*', ']']

/-- `DocPath::build_expr`: concatenation of the token renderings. -/
def buildExpr (tokens : List PathToken) : List Char :=
  (tokens.map renderToken).flatten

/-! ## Path parsing (`parse_path_exp` and helpers)

The Rust parser walks a `Peekable<Enumerate<Chars>>`; the character indices
feed only the error messages, so the embedding parses a plain `List Char`
and keeps the error strings index-free. -/

/-- `is_identifier_char` from `path_exp.rs` line 523 (Unicode alphanumerics
restricted to ASCII). -/
def isIdentifierChar (c : Char) : Bool :=
  c.isAlpha || c.isDigit || c = '_' || c = '-' || c = ':' || c = '#' || c = '@'

/-- The loop of `identifier` (`path_exp.rs` lines 528-548): extend the
identifier while identifier characters follow; stop before `.`, a quote or
`[`; reject anything else. Returns the identifier and the unconsumed rest. -/
def identifierLoop : List Char → List Char → Except String (List Char × List Char)
  | [], id => .ok (id, [])
  | c :: rest, id =>
    if isIdentifierChar c then identifierLoop rest (id ++ [c])
    else if c = '.' ∨ c = quoteChar ∨ c = '[' then .ok (id, c :: rest)
    else .error "is not allowed in an identifier in path expression"

/-- `identifier`: the first character has already been consumed by the
caller. -/
def identifier (ch : Char) (cs : List Char) : Except String (PathToken × List Char) :=
  match identifierLoop cs [ch] with
  | .ok (id, rest) => .ok (.field ⟨id⟩, rest)
  | .error e => .error e

/-- `path_identifier` (`path_exp.rs` lines 551-569): a `*` or an
identifier after a dot. -/
def pathIdentifier (cs : List Char) : Except String (PathToken × List Char) :=
  match cs with
  | [] => .error "Expected a path after dot in path expression"
  | c :: rest =>
    if c = '*' then .ok (.star, rest)
    else if isIdentifierChar c then identifier c rest
    else .error "Expected either a star or path identifier in path expression"

/-- The loop of `string_path` (`path_exp.rs` lines 572-599). `ch` is the
character most recently consumed; the loop pushes it and advances while it is
not a quote and input remains. -/
def stringPathLoop (ch : Char) (cs : List Char) (id : List Char) :
    Except String (List Char × List Char) :=
  if ch = quoteChar then
    if id = [] then .error "Empty strings are not allowed in path expression"
    else .ok (id, cs)
  else
    match cs with
    | [] => .error "Unterminated string in path expression"
    | c :: rest => stringPathLoop c rest (id ++ [ch])

/-- `string_path`: bracketed string field (the opening quote has been
consumed by `bracket_path`). Note the source performs no un-escaping. -/
def stringPath (cs : List Char) : Except String (PathToken × List Char) :=
  match cs with
  | [] => .error "Unterminated string in path expression"
  | c :: rest =>
    match stringPathLoop c rest [] with
    | .ok (id, rem) => .ok (.field ⟨id⟩, rem)
    | .error e => .error e

/-- Digit-collecting loop of `index_path` (`path_exp.rs` lines 602-628);
Rust `char::is_numeric` modelled as ASCII `isDigit`. -/
def indexPathLoop : List Char → List Char → List Char × List Char
  | [], id => (id, [])
  | c :: rest, id =>
    if c.isDigit then indexPathLoop rest (id ++ [c]) else (id, c :: rest)

/-- `index_path`: collects digits and requires the next character (if any) to
be `]`. The `id.parse().unwrap()` panics on a value exceeding `usize`; the
panic is modelled as an error value (unreachable from `bracket_path`, which
only calls this with a leading digit). -/
def indexPath (cs : List Char) : Except String (PathToken × List Char) :=
  match cs with
  | [] => .error "panic: index_path requires at least one character"
  | c :: rest =>
    let (id, rem) := indexPathLoop rest [c]
    let checked : Except String Unit :=
      match rem with
      | r :: _ =>
        if r ≠ ']' then .error "Indexes can only consist of numbers or a star"
        else .ok ()
      | [] => .ok ()
    match checked with
    | .error e => .error e
    | .ok _ =>
      match decDigitsVal id 0 with
      | some v =>
        if v < 2 ^ 64 then .ok (.index v, rem)
        else .error "panic: index overflows usize"
      | none => .error "panic: index is not a number"

/-- `bracket_path` (`path_exp.rs` lines 631-667): a quoted string, an index or
a `*`, followed by a closing `]`. -/
def bracketPath (cs : List Char) : Except String (PathToken × List Char) :=
  match cs with
  | [] => .error "Expected a single quote or a digit in path expression"
  | c :: rest =>
    let step : Except String (PathToken × List Char) :=
      if c = quoteChar then stringPath rest
      else if c.isDigit then indexPath (c :: rest)
      else if c = '*' then .ok (.starIndex, rest)
      else if c = ']' then .error "Empty bracket expressions are not allowed in path expression"
      else .error "Indexes can only consist of numbers or a star"
    match step with
    | .error e => .error e
    | .ok (tok, rem) =>
      match rem with
      | [] => .error "Unterminated brackets in path expression"
      | c2 :: rest2 =>
        if c2 ≠ ']' then .error "Unterminated brackets, found other than bracket"
        else .ok (tok, rest2)

/-- The loop of `path_exp` (`path_exp.rs` lines 670-684). Each iteration
consumes at least one character, so fuel equal to the input length suffices;
the fuel-exhaustion branch is unreachable. -/
def pathExpGo : Nat → List Char → List PathToken → Except String (List PathToken)
  | _, [], tokens => .ok tokens
  | 0, _ :: _, _ => .error "panic: path_exp fuel exhausted (unreachable)"
  | fuel + 1, c :: rest, tokens =>
    if c = '.' then
      match pathIdentifier rest with
      | .error e => .error e
      | .ok (tok, rem) => pathExpGo fuel rem (tokens ++ [tok])
    else if c = '[' then
      match bracketPath rest with
      | .error e => .error e
      | .ok (tok, rem) => pathExpGo fuel rem (tokens ++ [tok])
    else .error "Expected a dot or bracket in path expression"

/-- `path_exp`: dot-paths and bracket-paths until the input is exhausted. -/
def pathExp (cs : List Char) (tokens : List PathToken) : Except String (List PathToken) :=
  pathExpGo cs.length cs tokens

/-- `parse_path_exp` (`path_exp.rs` lines 686-710): an optional `$` root
(implied when the expression starts with an alphanumeric identifier), then
`path_exp`. The empty string parses to the empty token list. -/
def parsePathExp (path : String) : Except String (List PathToken) :=
  match path.data with
  | [] => .ok []
  | c :: rest =>
    if c = '$' then pathExp rest [.root]
    else if c.isAlpha ∨ c.isDigit then
      match identifier c rest with
      | .error e => .error e
      | .ok (tok, rem) => pathExp rem [.root, tok]
    else .error "Path expression does not start with a root marker"

/-! ## DocPath equality and hashing (`path_exp.rs` lines 489-511) -/

/-- `DocPath`: the parsed tokens together with the original expression
string. -/
structure DocPath where
  path_tokens : List PathToken
  expr : String
deriving DecidableEq, Repr

/-- `DocPath::new`: parse the expression and keep the original text. -/
def docPathNew (expr : String) : Except String DocPath :=
  match parsePathExp expr with
  | .ok tokens => .ok ⟨tokens, expr⟩
  | .error e => .error e

/-- `impl PartialEq for DocPath`: equality compares only the expression
strings. -/
def docPathEq (a b : DocPath) : Bool := a.expr == b.expr

/-- `impl Hash for DocPath`: only the expression string is fed to the hasher,
modelled by applying an arbitrary string hasher. -/
def docPathHash (hasher : String → Nat) (p : DocPath) : Nat := hasher p.expr

/-! ## Date/time expressions (`pact_models::generators::datetime_expressions`)

A `chrono::DateTime<Utc>` is modelled as a plain record of calendar fields;
UTC has no offset transitions, so adding a day-length `Duration` is the same
as stepping the calendar date, and the sub-day `Duration` arithmetic is exact
millisecond arithmetic (the generators only ever produce whole
milliseconds). -/

/-- The calendar/clock fields of a `DateTime<Utc>` (nanoseconds are only ever
whole milliseconds in this code path). -/
structure PlainDT where
  year : Int
  month : Nat
  day : Nat
  hour : Nat
  minute : Nat
  second : Nat
  millis : Nat
deriving DecidableEq, Repr

/-- Proleptic-Gregorian leap year, as used by `chrono`. -/
def isLeapYear (y : Int) : Bool :=
  y % 4 = 0 ∧ (y % 100 ≠ 0 ∨ y % 400 = 0)

/-- Days in a calendar month (the catch-all arm is unreachable for valid
months 1-12). -/
def daysInMonth (y : Int) (m : Nat) : Nat :=
  match m with
  | 1 => 31
  | 2 => if isLeapYear y then 29 else 28
  | 3 => 31
  | 4 => 30
  | 5 => 31
  | 6 => 30
  | 7 => 31
  | 8 => 31
  | 9 => 30
  | 10 => 31
  | 11 => 30
  | 12 => 31
  | _ => 31

/-- Adding a one-day `Duration` in UTC: step the calendar date, keep the
time of day. -/
def nextDay (d : PlainDT) : PlainDT :=
  if d.day < daysInMonth d.year d.month then { d with day := d.day + 1 }
  else if d.month < 12 then { d with month := d.month + 1, day := 1 }
  else { d with year := d.year + 1, month := 1, day := 1 }

/-- Subtracting a one-day `Duration` in UTC. -/
def prevDay (d : PlainDT) : PlainDT :=
  if d.day > 1 then { d with day := d.day - 1 }
  else if d.month > 1 then { d with month := d.month - 1, day := daysInMonth d.year (d.month - 1) }
  else { d with year := d.year - 1, month := 12, day := 31 }

/-- Add `n` days. -/
def addDaysNat : Nat → PlainDT → PlainDT
  | 0, d => d
  | n + 1, d => addDaysNat n (nextDay d)

/-- Subtract `n` days. -/
def subDaysNat : Nat → PlainDT → PlainDT
  | 0, d => d
  | n + 1, d => subDaysNat n (prevDay d)

/-- Add a signed number of days. -/
def addDaysInt (d : PlainDT) (n : Int) : PlainDT :=
  if 0 ≤ n then addDaysNat n.toNat d else subDaysNat (-n).toNat d

/-- Rust `u64 as i64`: reinterpret the low 64 bits as a signed value. -/
def castI64 (n : Nat) : Int :=
  if n % 2 ^ 64 < 2 ^ 63 then ((n % 2 ^ 64 : Nat) : Int)
  else ((n % 2 ^ 64 : Nat) : Int) - 2 ^ 64

/-- Rust `u64 as i32`: reinterpret the low 32 bits as a signed value. -/
def castI32 (n : Nat) : Int :=
  if n % 2 ^ 32 < 2 ^ 31 then ((n % 2 ^ 32 : Nat) : Int)
  else ((n % 2 ^ 32 : Nat) : Int) - 2 ^ 32

/-- `chrono::Duration::try_days`: `Some` while the duration stays within
`i64::MAX` milliseconds. The result is reported in days. -/
def tryDays (n : Int) : Option Int :=
  if n.natAbs ≤ 106751991167 then some n else none

/-- `chrono::Duration::try_weeks`, result in days. -/
def tryWeeks (n : Int) : Option Int :=
  if n.natAbs ≤ 15250284452 then some (7 * n) else none

/-- `chrono::Duration::try_hours`, result in milliseconds. -/
def tryHours (n : Int) : Option Int :=
  if n.natAbs ≤ 2562047788015 then some (n * 3600000) else none

/-- `chrono::Duration::try_minutes`, result in milliseconds. -/
def tryMinutes (n : Int) : Option Int :=
  if n.natAbs ≤ 153722867280912 then some (n * 60000) else none

/-- `chrono::Duration::try_seconds`, result in milliseconds. -/
def trySeconds (n : Int) : Option Int :=
  if n.natAbs ≤ 9223372036854775 then some (n * 1000) else none

/-- `chrono::Duration::try_milliseconds`: only `i64::MIN` is rejected
(`chrono` durations range over `±i64::MAX` milliseconds). -/
def tryMillis (n : Int) : Option Int :=
  if n.natAbs ≤ 9223372036854775807 then some n else none

/-- Milliseconds since midnight. -/
def todMs (d : PlainDT) : Int :=
  (d.hour * 3600000 + d.minute * 60000 + d.second * 1000 + d.millis : Nat)

/-- Add a signed number of milliseconds to a date-time (UTC arithmetic:
carries move whole days across the calendar date). -/
def addMillis (d : PlainDT) (deltaMs : Int) : PlainDT :=
  let total : Int := todMs d + deltaMs
  let dayShift : Int := Int.fdiv total 86400000
  let remN : Nat := (Int.emod total 86400000).toNat
  let dd := addDaysInt d dayShift
  { dd with
    hour := remN / 3600000,
    minute := remN % 3600000 / 60000,
    second := remN % 60000 / 1000,
    millis := remN % 1000 }

/-- `chrono` `with_hour`: fails for hours of 24 and above (reachable via
`TimeBase::Pm { hour: 12 }`), in which case the caller falls back. -/
def withHourOr (t : PlainDT) (h : Nat) (fallback : PlainDT) : PlainDT :=
  if h < 24 then { t with hour := h } else fallback

/-- `chrono` `with_year`: keeps month and day; fails (keeping the original
date, per `unwrap_or`) when the day does not exist in the target year or the
year leaves `chrono`'s supported range. -/
def withYearOr (d : PlainDT) (y : Int) : PlainDT :=
  if d.day ≤ daysInMonth y d.month ∧ -262144 ≤ y ∧ y ≤ 262143 then { d with year := y }
  else d

/-! ### The enums of `datetime_expressions.rs` -/

/-- `DateBase` (lines 73-76). -/
inductive DateBase where
  | NOW | TODAY | YESTERDAY | TOMORROW
deriving DecidableEq, Repr

/-- `TimeBase` (lines 79-85). -/
inductive TimeBase where
  | Now | Midnight | Noon
  | Am (hour : Nat)
  | Pm (hour : Nat)
  | Next (hour : Nat)
deriving DecidableEq, Repr

/-- `Operation` (lines 107-110). -/
inductive Operation where
  | PLUS | MINUS
deriving DecidableEq, Repr

/-- `DateOffsetType` (lines 113-117). -/
inductive DateOffsetType where
  | DAY | WEEK | MONTH | YEAR
  | MONDAY | TUESDAY | WEDNESDAY | THURSDAY | FRIDAY | SATURDAY | SUNDAY
  | JAN | FEB | MAR | APR | MAY | JUNE | JULY | AUG | SEP | OCT | NOV | DEC
deriving DecidableEq, Repr

/-- `TimeOffsetType` (lines 120-123). -/
inductive TimeOffsetType where
  | HOUR | MINUTE | SECOND | MILLISECOND
deriving DecidableEq, Repr

/-- `ClockHour` (lines 126-129). -/
inductive ClockHour where
  | AM | PM | NEXT
deriving DecidableEq, Repr

/-- `Adjustment<T>` (lines 132-140); the `value` field is a Rust `u64`. -/
structure Adjustment (T : Type) where
  adjustment_type : T
  value : Nat
  operation : Operation
deriving DecidableEq, Repr

/-- `TimeBase::of` (lines 88-103): clock hours must lie in 1..=12. -/
def timeBaseOf (hour : Nat) (ch : ClockHour) : Except String TimeBase :=
  match ch with
  | .AM => if 1 ≤ hour ∧ hour ≤ 12 then .ok (.Am hour) else .error "Expected hour 1 to 12"
  | .PM => if 1 ≤ hour ∧ hour ≤ 12 then .ok (.Pm hour) else .error "Expected hour 1 to 12"
  | .NEXT => if 1 ≤ hour ∧ hour ≤ 12 then .ok (.Next hour) else .error "Expected hour 1 to 12"

/-! ### Rolling adjustments (`roll_month`, `adjust_date_up_to`, …) -/

/-- One iteration block of the `roll_month` loop: add days until the month
changes (arriving at the first day of the following month). The source loop
is bounded by the month length, so fuel 32 suffices; the exhaustion branch is
unreachable for valid dates. -/
def stepMonthFwdGo : Nat → PlainDT → PlainDT
  | 0, d => d
  | fuel + 1, d =>
    let d' := nextDay d
    if d'.month = d.month then stepMonthFwdGo fuel d' else d'

/-- Step forward to the first day of the next month. -/
def stepMonthFwd (d : PlainDT) : PlainDT := stepMonthFwdGo 32 d

/-- Backward analogue: subtract days until the month changes (arriving at the
last day of the previous month). -/
def stepMonthBwdGo : Nat → PlainDT → PlainDT
  | 0, d => d
  | fuel + 1, d =>
    let d' := prevDay d
    if d'.month = d.month then stepMonthBwdGo fuel d' else d'

/-- Step backward to the last day of the previous month. -/
def stepMonthBwd (d : PlainDT) : PlainDT := stepMonthBwdGo 32 d

/-- Forward phase of `roll_month`: the loop increments the date one day at a
time counting month boundaries, which is the same as stepping to the next
month start `n` times. -/
def rollMonthIterFwd : Nat → PlainDT → PlainDT
  | 0, d => d
  | n + 1, d => rollMonthIterFwd n (stepMonthFwd d)

/-- Backward phase of `roll_month`. -/
def rollMonthIterBwd : Nat → PlainDT → PlainDT
  | 0, d => d
  | n + 1, d => rollMonthIterBwd n (stepMonthBwd d)

/-- `chrono` `with_day` with `unwrap_or(date)`: restore a day of month when
it exists in the current month, otherwise keep the date unchanged. -/
def withDayOrKeep (d : PlainDT) (day0 : Nat) : PlainDT :=
  if 1 ≤ day0 ∧ day0 ≤ daysInMonth d.year d.month then { d with day := day0 }
  else d

/-- `roll_month` (`datetime_expressions.rs` lines 321-350): roll the date one
day at a time until the month has changed `|months|` times, then try to
restore the original day of month (`with_day(day).unwrap_or(date)`). -/
def rollMonth (date : PlainDT) (months : Int) : PlainDT :=
  let day := date.day
  if 0 < months then withDayOrKeep (rollMonthIterFwd months.toNat date) day
  else if months < 0 then withDayOrKeep (rollMonthIterBwd (-months).toNat date) day
  else date

/-- First loop of `adjust_date_up_to`: advance while the predicate holds.
The source predicates (a fixed weekday or month) fail within 366 successive
days, so fuel 1000 is unreachable. -/
def skipWhileTrueFwd : Nat → (PlainDT → Bool) → PlainDT → PlainDT
  | 0, _, d => d
  | fuel + 1, p, d => if p d then skipWhileTrueFwd fuel p (nextDay d) else d

/-- Second loop of `adjust_date_up_to`: advance while the predicate fails. -/
def advanceUntilFwd : Nat → (PlainDT → Bool) → PlainDT → PlainDT
  | 0, _, d => d
  | fuel + 1, p, d => if p d then d else advanceUntilFwd fuel p (nextDay d)

/-- `adjust_date_up_to` (lines 283-299). -/
def adjustDateUpTo (p : PlainDT → Bool) (d : PlainDT) : PlainDT :=
  advanceUntilFwd 1000 p (skipWhileTrueFwd 1000 p d)

/-- First loop of `adjust_date_down_to`. -/
def skipWhileTrueBwd : Nat → (PlainDT → Bool) → PlainDT → PlainDT
  | 0, _, d => d
  | fuel + 1, p, d => if p d then skipWhileTrueBwd fuel p (prevDay d) else d

/-- Second loop of `adjust_date_down_to`. -/
def advanceUntilBwd : Nat → (PlainDT → Bool) → PlainDT → PlainDT
  | 0, _, d => d
  | fuel + 1, p, d => if p d then d else advanceUntilBwd fuel p (prevDay d)

/-- `adjust_date_down_to` (lines 302-318). -/
def adjustDateDownTo (p : PlainDT → Bool) (d : PlainDT) : PlainDT :=
  advanceUntilBwd 1000 p (skipWhileTrueBwd 1000 p d)

/-- Rata-die day number of a proleptic-Gregorian date (floor divisions so the
formula extends to years before 1). Only used for the weekday predicates. -/
def rataDie (d : PlainDT) : Int :=
  let y := d.year - 1
  let daysBeforeMonth : Nat :=
    match d.month with
    | 1 => 0 | 2 => 31 | 3 => 59 | 4 => 90 | 5 => 120 | 6 => 151
    | 7 => 181 | 8 => 212 | 9 => 243 | 10 => 273 | 11 => 304 | _ => 334
  let leapAdjust : Int := if 2 < d.month ∧ isLeapYear d.year then 1 else 0
  365 * y + Int.fdiv y 4 - Int.fdiv y 100 + Int.fdiv y 400 +
    (daysBeforeMonth : Int) + leapAdjust + (d.day : Int)

/-- Weekday number with Monday = 0 (0001-01-01 is a Monday in the proleptic
Gregorian calendar). -/
def weekdayNum (d : PlainDT) : Int := Int.emod (rataDie d - 1) 7

/-- `with_day(1).unwrap_or_else(|| date.clone())` used by the month-name arms
of `reverse_date_by`: the fallback is the original date. -/
def withDay1Or (x : PlainDT) (fallback : PlainDT) : PlainDT :=
  if 1 ≤ daysInMonth x.year x.month then { x with day := 1 } else fallback

/-- `forward_date_by` (`datetime_expressions.rs` lines 248-280). -/
def forwardDateBy (adjustment : Adjustment DateOffsetType) (date : PlainDT) :
    Except String PlainDT :=
  match adjustment.adjustment_type with
  | .DAY =>
    match tryDays (castI64 adjustment.value) with
    | some k => .ok (addDaysInt date k)
    | none => .error "Adjustment value overflows the bounds"
  | .WEEK =>
    match tryWeeks (castI64 adjustment.value) with
    | some k => .ok (addDaysInt date k)
    | none => .error "Adjustment value overflows the bounds"
  | .MONTH => .ok (rollMonth date (castI64 adjustment.value))
  | .YEAR => .ok (withYearOr date (date.year + castI32 adjustment.value))
  | .MONDAY => .ok (adjustDateUpTo (fun d => weekdayNum d = 0) date)
  | .TUESDAY => .ok (adjustDateUpTo (fun d => weekdayNum d = 1) date)
  | .WEDNESDAY => .ok (adjustDateUpTo (fun d => weekdayNum d = 2) date)
  | .THURSDAY => .ok (adjustDateUpTo (fun d => weekdayNum d = 3) date)
  | .FRIDAY => .ok (adjustDateUpTo (fun d => weekdayNum d = 4) date)
  | .SATURDAY => .ok (adjustDateUpTo (fun d => weekdayNum d = 5) date)
  | .SUNDAY => .ok (adjustDateUpTo (fun d => weekdayNum d = 6) date)
  | .JAN => .ok (adjustDateUpTo (fun d => d.month = 1) date)
  | .FEB => .ok (adjustDateUpTo (fun d => d.month = 2) date)
  | .MAR => .ok (adjustDateUpTo (fun d => d.month = 3) date)
  | .APR => .ok (adjustDateUpTo (fun d => d.month = 4) date)
  | .MAY => .ok (adjustDateUpTo (fun d => d.month = 5) date)
  | .JUNE => .ok (adjustDateUpTo (fun d => d.month = 6) date)
  | .JULY => .ok (adjustDateUpTo (fun d => d.month = 7) date)
  | .AUG => .ok (adjustDateUpTo (fun d => d.month = 8) date)
  | .SEP => .ok (adjustDateUpTo (fun d => d.month = 9) date)
  | .OCT => .ok (adjustDateUpTo (fun d => d.month = 10) date)
  | .NOV => .ok (adjustDateUpTo (fun d => d.month = 11) date)
  | .DEC => .ok (adjustDateUpTo (fun d => d.month = 12) date)

/-- `reverse_date_by` (`datetime_expressions.rs` lines 352-384). -/
def reverseDateBy (adjustment : Adjustment DateOffsetType) (date : PlainDT) :
    Except String PlainDT :=
  match adjustment.adjustment_type with
  | .DAY =>
    match tryDays (castI64 adjustment.value) with
    | some k => .ok (addDaysInt date (-k))
    | none => .error "Adjustment value overflows the bounds"
  | .WEEK =>
    match tryWeeks (castI64 adjustment.value) with
    | some k => .ok (addDaysInt date (-k))
    | none => .error "Adjustment value overflows the bounds"
  | .MONTH => .ok (rollMonth date (-(castI64 adjustment.value)))
  | .YEAR => .ok (withYearOr date (date.year - castI32 adjustment.value))
  | .MONDAY => .ok (adjustDateDownTo (fun d => weekdayNum d = 0) date)
  | .TUESDAY => .ok (adjustDateDownTo (fun d => weekdayNum d = 1) date)
  | .WEDNESDAY => .ok (adjustDateDownTo (fun d => weekdayNum d = 2) date)
  | .THURSDAY => .ok (adjustDateDownTo (fun d => weekdayNum d = 3) date)
  | .FRIDAY => .ok (adjustDateDownTo (fun d => weekdayNum d = 4) date)
  | .SATURDAY => .ok (adjustDateDownTo (fun d => weekdayNum d = 5) date)
  | .SUNDAY => .ok (adjustDateDownTo (fun d => weekdayNum d = 6) date)
  | .JAN => .ok (withDay1Or (adjustDateDownTo (fun d => d.month = 1) date) date)
  | .FEB => .ok (withDay1Or (adjustDateDownTo (fun d => d.month = 2) date) date)
  | .MAR => .ok (withDay1Or (adjustDateDownTo (fun d => d.month = 3) date) date)
  | .APR => .ok (withDay1Or (adjustDateDownTo (fun d => d.month = 4) date) date)
  | .MAY => .ok (withDay1Or (adjustDateDownTo (fun d => d.month = 5) date) date)
  | .JUNE => .ok (withDay1Or (adjustDateDownTo (fun d => d.month = 6) date) date)
  | .JULY => .ok (withDay1Or (adjustDateDownTo (fun d => d.month = 7) date) date)
  | .AUG => .ok (withDay1Or (adjustDateDownTo (fun d => d.month = 8) date) date)
  | .SEP => .ok (withDay1Or (adjustDateDownTo (fun d => d.month = 9) date) date)
  | .OCT => .ok (withDay1Or (adjustDateDownTo (fun d => d.month = 10) date) date)
  | .NOV => .ok (withDay1Or (adjustDateDownTo (fun d => d.month = 11) date) date)
  | .DEC => .ok (withDay1Or (adjustDateDownTo (fun d => d.month = 12) date) date)

/-! ### The date/time expression parsers

`date_expression_parser.rs` and `time_expression_parser.rs` are not part of
the provided sources (only their caller `datetime_expressions.rs` is), so the
parsers below are modelled from the specification grammar (§4.3) and the
expression table in the `datetime_expressions.rs` module documentation. -/

/-- Modelled from the spec: `ParsedDateExpression` produced by the date
expression parser of `date_expression_parser.rs` (missing from the sources);
its shape (`base` plus a list of adjustments) is fixed by its use in
`execute_date_expression`. -/
structure ParsedDateExpression where
  base : DateBase
  adjustments : List (Adjustment DateOffsetType)
deriving DecidableEq, Repr

/-- Modelled from the spec: `ParsedTimeExpression` produced by the time
expression parser of `time_expression_parser.rs` (missing from the
sources). -/
structure ParsedTimeExpression where
  base : TimeBase
  adjustments : List (Adjustment TimeOffsetType)
deriving DecidableEq, Repr

/-- Lexer token for the expression languages: words (letters, allowing the
embedded quote of the o-clock keyword), unsigned integers, and the plus and
minus signs. -/
inductive ExpTok where
  | word : String → ExpTok
  | num : Nat → ExpTok
  | plus | minus
deriving DecidableEq, Repr

/-- Characters the expression lexers skip (`logos` skip `[ \t\n\f]+`). -/
def isExpWhitespace (c : Char) : Bool :=
  c = ' ' ∨ c = Char.ofNat 9 ∨ c = Char.ofNat 10 ∨ c = Char.ofNat 12

/-- A word character: a letter or the quote inside the o-clock keyword. -/
def isExpWordChar (c : Char) : Bool := c.isAlpha || c = quoteChar

/-- Take a maximal run satisfying the predicate. -/
def takeRun (p : Char → Bool) : List Char → List Char × List Char
  | [] => ([], [])
  | c :: rest =>
    if p c then
      let (run, rem) := takeRun p rest
      (c :: run, rem)
    else ([], c :: rest)

/-- Modelled from the spec: the expression lexer. Fuel equal to the input
length suffices since every iteration consumes at least one character. -/
def lexExpGo : Nat → List Char → Except String (List ExpTok)
  | _, [] => .ok []
  | 0, _ :: _ => .error "panic: lexer fuel exhausted (unreachable)"
  | fuel + 1, c :: rest =>
    if isExpWhitespace c then lexExpGo fuel rest
    else if c = '+' then
      match lexExpGo fuel rest with
      | .ok ts => .ok (.plus :: ts)
      | .error e => .error e
    else if c = '-' then
      match lexExpGo fuel rest with
      | .ok ts => .ok (.minus :: ts)
      | .error e => .error e
    else if c.isDigit then
      let (run, rem) := takeRun Char.isDigit rest
      match decDigitsVal (c :: run) 0 with
      | some v =>
        if v < 2 ^ 64 then
          match lexExpGo fuel rem with
          | .ok ts => .ok (.num v :: ts)
          | .error e => .error e
        else .error "Integer literal overflows u64"
      | none => .error "panic: digit run is numeric (unreachable)"
    else if c.isAlpha then
      let (run, rem) := takeRun isExpWordChar rest
      match lexExpGo fuel rem with
      | .ok ts => .ok (.word ⟨c :: run⟩ :: ts)
      | .error e => .error e
    else .error "Unexpected character in expression"

/-- Lex an expression string. -/
def lexExp (s : String) : Except String (List ExpTok) := lexExpGo s.data.length s.data

/-- Modelled from the spec: the date units of the grammar
(`day|week|fortnight|month|year`, weekday and month names, each with plural
or short forms). A fortnight is two weeks, so the unit carries a value
multiplier. -/
def dateUnitOfWord (w : String) : Option (DateOffsetType × Nat) :=
  if w = "day" ∨ w = "days" then some (.DAY, 1)
  else if w = "week" ∨ w = "weeks" then some (.WEEK, 1)
  else if w = "fortnight" ∨ w = "fortnights" then some (.WEEK, 2)
  else if w = "month" ∨ w = "months" then some (.MONTH, 1)
  else if w = "year" ∨ w = "years" then some (.YEAR, 1)
  else if w = "monday" ∨ w = "mon" then some (.MONDAY, 1)
  else if w = "tuesday" ∨ w = "tue" then some (.TUESDAY, 1)
  else if w = "wednesday" ∨ w = "wed" then some (.WEDNESDAY, 1)
  else if w = "thursday" ∨ w = "thu" then some (.THURSDAY, 1)
  else if w = "friday" ∨ w = "fri" then some (.FRIDAY, 1)
  else if w = "saturday" ∨ w = "sat" then some (.SATURDAY, 1)
  else if w = "sunday" ∨ w = "sun" then some (.SUNDAY, 1)
  else if w = "january" ∨ w = "jan" then some (.JAN, 1)
  else if w = "february" ∨ w = "feb" then some (.FEB, 1)
  else if w = "march" ∨ w = "mar" then some (.MAR, 1)
  else if w = "april" ∨ w = "apr" then some (.APR, 1)
  else if w = "may" then some (.MAY, 1)
  else if w = "june" ∨ w = "jun" then some (.JUNE, 1)
  else if w = "july" ∨ w = "jul" then some (.JULY, 1)
  else if w = "august" ∨ w = "aug" then some (.AUG, 1)
  else if w = "september" ∨ w = "sep" then some (.SEP, 1)
  else if w = "october" ∨ w = "oct" then some (.OCT, 1)
  else if w = "november" ∨ w = "nov" then some (.NOV, 1)
  else if w = "december" ∨ w = "dec" then some (.DEC, 1)
  else none

/-- Modelled from the spec: the adjustment list of a date expression,
`(("+"|"-") integer unit)*`. -/
def parseDateAdjustments : List ExpTok → Except String (List (Adjustment DateOffsetType))
  | [] => .ok []
  | .plus :: .num n :: .word w :: rest =>
    match dateUnitOfWord w with
    | some (ty, k) =>
      match parseDateAdjustments rest with
      | .ok as' => .ok (⟨ty, n * k, .PLUS⟩ :: as')
      | .error e => .error e
    | none => .error "Expected a date offset unit"
  | .minus :: .num n :: .word w :: rest =>
    match dateUnitOfWord w with
    | some (ty, k) =>
      match parseDateAdjustments rest with
      | .ok as' => .ok (⟨ty, n * k, .MINUS⟩ :: as')
      | .error e => .error e
    | none => .error "Expected a date offset unit"
  | _ => .error "Expected an adjustment of the form sign, integer, unit"

/-- Modelled from the spec: a date expression `base? (adjustment)*` with
`base := now | today | yesterday | tomorrow | ("next"|"last") unit`. A
`next`/`last` base becomes a leading `+1`/`-1` adjustment applied before the
explicit ones (per the documented examples, with a fortnight counting as two
weeks). -/
def parseDateExpression (s : String) : Except String ParsedDateExpression :=
  match lexExp s with
  | .error e => .error e
  | .ok toks =>
    match toks with
    | .word "now" :: rest =>
      match parseDateAdjustments rest with
      | .ok as' => .ok ⟨.NOW, as'⟩
      | .error e => .error e
    | .word "today" :: rest =>
      match parseDateAdjustments rest with
      | .ok as' => .ok ⟨.TODAY, as'⟩
      | .error e => .error e
    | .word "yesterday" :: rest =>
      match parseDateAdjustments rest with
      | .ok as' => .ok ⟨.YESTERDAY, as'⟩
      | .error e => .error e
    | .word "tomorrow" :: rest =>
      match parseDateAdjustments rest with
      | .ok as' => .ok ⟨.TOMORROW, as'⟩
      | .error e => .error e
    | .word "next" :: .word u :: rest =>
      match dateUnitOfWord u with
      | some (ty, k) =>
        match parseDateAdjustments rest with
        | .ok as' => .ok ⟨.NOW, ⟨ty, k, .PLUS⟩ :: as'⟩
        | .error e => .error e
      | none => .error "Expected a date offset unit"
    | .word "last" :: .word u :: rest =>
      match dateUnitOfWord u with
      | some (ty, k) =>
        match parseDateAdjustments rest with
        | .ok as' => .ok ⟨.NOW, ⟨ty, k, .MINUS⟩ :: as'⟩
        | .error e => .error e
      | none => .error "Expected a date offset unit"
    | other =>
      match parseDateAdjustments other with
      | .ok as' => .ok ⟨.NOW, as'⟩
      | .error e => .error e

/-- The o-clock keyword (written via `quoteChar` to keep the embedded
quote out of the source literal). -/
def oclockWord : String := ⟨['o', quoteChar, 'c', 'l', 'o', 'c', 'k']⟩

/-- Modelled from the spec: the time units `hour|minute|second|millisecond`
with plural forms. -/
def timeUnitOfWord (w : String) : Option TimeOffsetType :=
  if w = "hour" ∨ w = "hours" then some .HOUR
  else if w = "minute" ∨ w = "minutes" then some .MINUTE
  else if w = "second" ∨ w = "seconds" then some .SECOND
  else if w = "millisecond" ∨ w = "milliseconds" then some .MILLISECOND
  else none

/-- Modelled from the spec: the adjustment list of a time expression. -/
def parseTimeAdjustments : List ExpTok → Except String (List (Adjustment TimeOffsetType))
  | [] => .ok []
  | .plus :: .num n :: .word w :: rest =>
    match timeUnitOfWord w with
    | some ty =>
      match parseTimeAdjustments rest with
      | .ok as' => .ok (⟨ty, n, .PLUS⟩ :: as')
      | .error e => .error e
    | none => .error "Expected a time offset unit"
  | .minus :: .num n :: .word w :: rest =>
    match timeUnitOfWord w with
    | some ty =>
      match parseTimeAdjustments rest with
      | .ok as' => .ok (⟨ty, n, .MINUS⟩ :: as')
      | .error e => .error e
    | none => .error "Expected a time offset unit"
  | _ => .error "Expected an adjustment of the form sign, integer, unit"

/-- Modelled from the spec: a time expression
`base? (adjustment)*` with `base := now | midnight | noon |
integer "o'clock" ["am"|"pm"] | ("next"|"last") unit`. An o-clock hour
without am or pm selects the next occurrence of that clock hour
(`ClockHour::NEXT`), validated by `TimeBase::of`. -/
def parseTimeExpression (s : String) : Except String ParsedTimeExpression :=
  match lexExp s with
  | .error e => .error e
  | .ok toks =>
    match toks with
    | .word "now" :: rest =>
      match parseTimeAdjustments rest with
      | .ok as' => .ok ⟨.Now, as'⟩
      | .error e => .error e
    | .word "midnight" :: rest =>
      match parseTimeAdjustments rest with
      | .ok as' => .ok ⟨.Midnight, as'⟩
      | .error e => .error e
    | .word "noon" :: rest =>
      match parseTimeAdjustments rest with
      | .ok as' => .ok ⟨.Noon, as'⟩
      | .error e => .error e
    | .num n :: .word w :: rest =>
      if w = oclockWord then
        match rest with
        | .word "am" :: rest2 =>
          match timeBaseOf n .AM with
          | .ok b =>
            match parseTimeAdjustments rest2 with
            | .ok as' => .ok ⟨b, as'⟩
            | .error e => .error e
          | .error e => .error e
        | .word "pm" :: rest2 =>
          match timeBaseOf n .PM with
          | .ok b =>
            match parseTimeAdjustments rest2 with
            | .ok as' => .ok ⟨b, as'⟩
            | .error e => .error e
          | .error e => .error e
        | rest2 =>
          match timeBaseOf n .NEXT with
          | .ok b =>
            match parseTimeAdjustments rest2 with
            | .ok as' => .ok ⟨b, as'⟩
            | .error e => .error e
          | .error e => .error e
      else .error "Expected the o-clock keyword after an hour"
    | .word "next" :: .word u :: rest =>
      match timeUnitOfWord u with
      | some ty =>
        match parseTimeAdjustments rest with
        | .ok as' => .ok ⟨.Now, ⟨ty, 1, .PLUS⟩ :: as'⟩
        | .error e => .error e
      | none => .error "Expected a time offset unit"
    | .word "last" :: .word u :: rest =>
      match timeUnitOfWord u with
      | some ty =>
        match parseTimeAdjustments rest with
        | .ok as' => .ok ⟨.Now, ⟨ty, 1, .MINUS⟩ :: as'⟩
        | .error e => .error e
      | none => .error "Expected a time offset unit"
    | other =>
      match parseTimeAdjustments other with
      | .ok as' => .ok ⟨.Now, as'⟩
      | .error e => .error e

/-! ### Expression evaluation (`datetime_expressions.rs` lines 142-246) -/

/-- `base_date` (lines 386-393). -/
def baseDate (result : ParsedDateExpression) (base : PlainDT) : PlainDT :=
  match result.base with
  | .NOW => base
  | .TODAY => base
  | .YESTERDAY => subDaysNat 1 base
  | .TOMORROW => addDaysNat 1 base

/-- The adjustment fold inside `execute_date_expression`. -/
def applyDateAdjustments : PlainDT → List (Adjustment DateOffsetType) → Except String PlainDT
  | d, [] => .ok d
  | d, a :: rest =>
    let step :=
      match a.operation with
      | .PLUS => forwardDateBy a d
      | .MINUS => reverseDateBy a d
    match step with
    | .ok d' => applyDateAdjustments d' rest
    | .error e => .error e

/-- `execute_date_expression` (lines 154-168). -/
def executeDateExpression (dt : PlainDT) (expression : String) : Except String PlainDT :=
  if expression = "" then .ok dt
  else
    match parseDateExpression expression with
    | .error e => .error e
    | .ok result => applyDateAdjustments (baseDate result dt) result.adjustments

/-- One time adjustment as a signed number of milliseconds, going through the
bounded `Duration::try_*` constructors (lines 196-218). -/
def timeAdjustmentMs (a : Adjustment TimeOffsetType) : Option Int :=
  match a.adjustment_type with
  | .HOUR => tryHours (castI64 a.value)
  | .MINUTE => tryMinutes (castI64 a.value)
  | .SECOND => trySeconds (castI64 a.value)
  | .MILLISECOND => tryMillis (castI64 a.value)

/-- The adjustment fold inside `execute_time_expression`. -/
def applyTimeAdjustments : PlainDT → List (Adjustment TimeOffsetType) → Except String PlainDT
  | d, [] => .ok d
  | d, a :: rest =>
    match timeAdjustmentMs a with
    | none => .error "Adjustment value overflows the bounds"
    | some ms =>
      match a.operation with
      | .PLUS => applyTimeAdjustments (addMillis d ms) rest
      | .MINUS => applyTimeAdjustments (addMillis d (-ms)) rest

/-- `execute_time_expression` (lines 171-223): truncate minutes, seconds and
nanoseconds, pick the base hour, then fold the adjustments. -/
def executeTimeExpression (dt : PlainDT) (expression : String) : Except String PlainDT :=
  if expression = "" then .ok dt
  else
    match parseTimeExpression expression with
    | .error e => .error e
    | .ok result =>
      let time := { dt with minute := 0, second := 0, millis := 0 }
      let baseTime :=
        match result.base with
        | .Now => dt
        | .Midnight => withHourOr time 0 dt
        | .Noon => withHourOr time 12 dt
        | .Am hour => withHourOr time hour dt
        | .Pm hour => withHourOr time (12 + hour) dt
        | .Next hour =>
          if dt.hour < 12 then withHourOr time (12 + hour) dt
          else withHourOr time hour dt
      applyTimeAdjustments baseTime result.adjustments

/-- Rust `str::split_once`: split at the first occurrence of the
separator. -/
def splitOnceAt (sep : Char) : List Char → Option (List Char × List Char)
  | [] => none
  | c :: rest =>
    if c = sep then some ([], rest)
    else
      match splitOnceAt sep rest with
      | some (a, b) => some (c :: a, b)
      | none => none

/-- `execute_datetime_expression` (lines 226-246): split on the first `@`;
the time part is evaluated against the date result when that succeeded,
against the original base otherwise, and errors from both parts are
combined. -/
def executeDatetimeExpression (dt : PlainDT) (expression : String) : Except String PlainDT :=
  if expression ≠ "" then
    match splitOnceAt '@' expression.data with
    | some (datePart, timePart) =>
      let dateResult := executeDateExpression dt ⟨datePart⟩
      let timeResult :=
        match dateResult with
        | .ok result => executeTimeExpression result ⟨timePart⟩
        | .error _ => executeTimeExpression dt ⟨timePart⟩
      match dateResult, timeResult with
      | .error e1, .error e2 => .error (e1 ++ "\n" ++ e2)
      | .error e, .ok _ => .error e
      | .ok _, .error e => .error e
      | .ok _, .ok t => .ok t
    | none => executeDateExpression dt expression
  else .ok dt

/-! ## Matching-rule definition expressions
(`pact_models::matchingrules::expressions`)

`ValueType` and the two merge operations are embedded from
`expressions.rs`. The `MatchingRule` and `Generator` catalogs live in
`matchingrules/mod.rs` and `generators/mod.rs`, which are not part of the
provided sources; they are modelled from the specification's closed variant
lists (§3). The claims below treat rules and generators as opaque list
elements, so only the variant shapes matter. -/

/-- `ValueType` (`expressions.rs` lines 129-137). -/
inductive ValueType where
  | Unknown | String | Number | Integer | Decimal | Boolean
deriving DecidableEq, Repr

/-- `ValueType::merge` (`expressions.rs` lines 141-171): the arms are listed
in source order; Rust `match` takes the first matching arm, and the final
catch-all returns the other value. -/
def ValueType.merge (self other : ValueType) : ValueType :=
  match self, other with
  | .String, .String => .String
  | .Number, .Number => .Number
  | .Number, .Boolean => .Number
  | .Number, .Unknown => .Number
  | .Number, .Integer => .Integer
  | .Number, .Decimal => .Decimal
  | .Number, .String => .String
  | .Integer, .Number => .Integer
  | .Integer, .Boolean => .Integer
  | .Integer, .Unknown => .Integer
  | .Integer, .Integer => .Integer
  | .Integer, .Decimal => .Decimal
  | .Integer, .String => .String
  | .Decimal, .Number => .Decimal
  | .Decimal, .Boolean => .Decimal
  | .Decimal, .Unknown => .Decimal
  | .Decimal, .Integer => .Decimal
  | .Decimal, .Decimal => .Decimal
  | .Decimal, .String => .String
  | .Boolean, .Number => .Number
  | .Boolean, .Integer => .Integer
  | .Boolean, .Decimal => .Decimal
  | .Boolean, .Unknown => .Boolean
  | .Boolean, .String => .String
  | .Boolean, .Boolean => .Boolean
  | .String, _ => .String
  | _, _ => other

/-- Modelled from the spec: the `StatusCode` rule configuration
(§4.2, `kind ∈ {Information, Success, Redirect, ClientError, ServerError,
NonError, Error, StatusCodes([n,…])}`). -/
inductive StatusCodeKind where
  | information | success | redirect | clientError | serverError
  | nonError | error | statusCodes (codes : List Nat)

mutual

/-- Modelled from the spec: the closed `MatchingRule` catalog of §3
(defined in `matchingrules/mod.rs`, which is missing from the sources). -/
inductive MatchingRule where
  | equality
  | regex (pattern : String)
  | typeMatcher
  | minType (n : Nat)
  | maxType (n : Nat)
  | minMaxType (mn mx : Nat)
  | includes (substring : String)
  | number
  | integer
  | decimal
  | boolean
  | null
  | date (fmt : String)
  | time (fmt : String)
  | timestamp (fmt : String)
  | contentType (ct : String)
  | values
  | arrayContains (variants : List ArrayContainsVariant)
  | semver
  | eachKey (defn : MatchingRuleDefinition)
  | eachValue (defn : MatchingRuleDefinition)
  | notEmpty
  | statusCode (kind : StatusCodeKind)

/-- Modelled from the spec: an `ArrayContains` variant, a tuple of template
index, matching rules and generators (rule and generator maps flattened to
path-keyed lists). -/
inductive ArrayContainsVariant where
  | mk (index : Nat) (rules : List (String × MatchingRule))
      (generators : List (String × Generator))

/-- Modelled from the spec: the closed `Generator` catalog of §3 (defined in
`generators/mod.rs`, which is missing from the sources). -/
inductive Generator where
  | randomInt (mn mx : Int)
  | randomDecimal (digits : Nat)
  | randomHexadecimal (digits : Nat)
  | randomString (size : Nat)
  | uuid (format : Option String)
  | randomBoolean
  | date (fmt expr : Option String)
  | time (fmt expr : Option String)
  | dateTime (fmt expr : Option String)
  | regex (pattern : String)
  | providerStateGenerator (expression : String) (ty : Option String)
  | mockServerURL (exampleVal regex : String)
  | arrayContainsGen (variants : List ArrayContainsVariant)

/-- `Either<MatchingRule, MatchingReference>` as stored in the `rules` field
of `MatchingRuleDefinition` (`expressions.rs` lines 188-201); a
`MatchingReference` carries the referenced attribute name. -/
inductive RuleOrRef where
  | rule (r : MatchingRule)
  | reference (name : String)

/-- `MatchingRuleDefinition` (`expressions.rs` lines 195-201). -/
inductive MatchingRuleDefinition where
  | mk (value : String) (value_type : ValueType) (rules : List RuleOrRef)
      (generator : Option Generator)

end

/-- The `value` field of a `MatchingRuleDefinition`. -/
def MatchingRuleDefinition.value : MatchingRuleDefinition → String
  | .mk v _ _ _ => v

/-- The `value_type` field of a `MatchingRuleDefinition`. -/
def MatchingRuleDefinition.value_type : MatchingRuleDefinition → ValueType
  | .mk _ vt _ _ => vt

/-- The `rules` field of a `MatchingRuleDefinition`. -/
def MatchingRuleDefinition.rules : MatchingRuleDefinition → List RuleOrRef
  | .mk _ _ rs _ => rs

/-- The `generator` field of a `MatchingRuleDefinition`. -/
def MatchingRuleDefinition.generator : MatchingRuleDefinition → Option Generator
  | .mk _ _ _ g => g

/-- `MatchingRuleDefinition::merge` (`expressions.rs` lines 221-239): keep
the first non-empty value (the warnings in the source only log), merge the
value types, append the rule lists, keep the first generator. -/
def MatchingRuleDefinition.merge (self other : MatchingRuleDefinition) :
    MatchingRuleDefinition :=
  .mk (if self.value = "" then other.value else self.value)
    (self.value_type.merge other.value_type)
    (self.rules ++ other.rules)
    (self.generator.or other.generator)

/-! ## Bodies from pact JSON (`pact_models::json_utils::body_from_json`) -/

/-- A `serde_json::Value`; numbers are carried as their literal text, which
the embedded code never inspects. -/
inductive Json where
  | null
  | bool (b : Bool)
  | numLit (text : String)
  | str (s : String)
  | arr (items : List Json)
  | obj (entries : List (String × Json))

/-- `serde_json::Value::get` on a field name: a lookup in the object map
(`serde` maps have unique keys; modelled as first match), `None` for
non-objects. -/
def jsonGet (v : Json) (field : String) : Option Json :=
  match v with
  | .obj entries =>
    match entries.find? (fun kv => kv.1 = field) with
    | some kv => some kv.2
    | none => none
  | _ => none

/-- The two observations `body_from_json` makes of a
`pact_models::content_types::ContentType` (whose parsing and magic detection
are outside the provided sources and enter as oracles below). -/
structure CTInfo where
  isJson : Bool
  isText : Bool
deriving DecidableEq, Repr

/-- `ContentTypeHint` as referenced by `OptionalBody::Present` (always `None`
on the paths embedded here). -/
inductive ContentTypeHint where
  | binary | text
deriving DecidableEq, Repr

/-- `OptionalBody` from `pact_models::bodies`: `Missing | Empty | Null |
Present(bytes, content_type?, content_type_hint?)`; the byte payload is
modelled as the string it decodes from. -/
inductive OptionalBody where
  | missing
  | empty
  | null
  | present (body : String) (contentType : Option CTInfo) (hint : Option ContentTypeHint)
deriving DecidableEq, Repr

/-- ASCII lower-casing (Rust `str::to_lowercase` restricted to ASCII). -/
def asciiLower (s : String) : String := ⟨s.data.map Char.toLower⟩

/-- Rust `char::is_whitespace` restricted to ASCII. -/
def isRustWhitespace (c : Char) : Bool :=
  c = ' ' ∨ c = Char.ofNat 9 ∨ c = Char.ofNat 10 ∨ c = Char.ofNat 13 ∨
    c = Char.ofNat 11 ∨ c = Char.ofNat 12

/-- Rust `str::trim`: drop whitespace from both ends. -/
def rustTrim (s : String) : String :=
  ⟨((s.data.dropWhile isRustWhitespace).reverse.dropWhile isRustWhitespace).reverse⟩

/-- Rust `str::split` on a separator character (an empty input yields one
empty piece, and separators at the ends yield empty pieces). -/
def splitOnChar (sep : Char) : List Char → List (List Char)
  | [] => [[]]
  | c :: rest =>
    if c = sep then [] :: splitOnChar sep rest
    else
      match splitOnChar sep rest with
      | g :: gs => (c :: g) :: gs
      | [] => [[c]]

/-- `splitOnChar` on strings. -/
def splitStr (sep : Char) (s : String) : List String :=
  (splitOnChar sep s.data).map fun l => ⟨l⟩

/-- The content-type scan at the top of `body_from_json` (`json_utils.rs`
lines 152-163): find a `content-type` header case-insensitively and parse its
first value; `ContentType::parse` enters as the `parseCT` oracle. The
indexing `kv.1[0]` panics on an empty value vector — an input reachable from
pact JSON, since `headers_from_json` in the same file decodes
`"content-type": []` to an empty vector — and the panic is modelled as an
error value. -/
def contentTypeFromHeaders (parseCT : String → Option CTInfo)
    (headers : Option (List (String × List String))) :
    Except String (Option CTInfo) :=
  match headers with
  | some h =>
    match h.find? (fun kv => asciiLower kv.1 = "content-type") with
    | some kv =>
      match kv.2 with
      | v :: _ => .ok (parseCT v)
      | [] => .error "panic: index out of bounds: the len is 0 but the index is 0"
    | none => .ok none
  | none => .ok none

/-- The body-field match of `body_from_json` (`json_utils.rs` lines 165-193),
after the content-type scan has produced `contentTypeHdr`. External
collaborators enter as oracles: `render` is `serde_json::Value::to_string`,
`detect` is `detect_content_type_from_string`, `jsonParsableOk` is the
`serde_json::from_str::<JsonParsable>` success test, and `b64decode` is the
base-64 decoder (returning the decoded bytes in their string model). The
default content type (`unwrap_or_default`) is neither JSON nor text. -/
def bodyFromJsonValue (render : Json → String) (detect : String → Option CTInfo)
    (jsonParsableOk : String → Bool) (b64decode : String → Option String)
    (contentTypeHdr : Option CTInfo)
    (request : Json) (fieldname : String) : OptionalBody :=
  match jsonGet request fieldname with
  | some v =>
    match v with
    | .str s =>
      if s = "" then .empty
      else
        let ct := contentTypeHdr.getD ((detect s).getD ⟨false, false⟩)
        if ct.isJson then
          if jsonParsableOk s then .present s (some ct) none
          else .present ("\"" ++ s ++ "\"") (some ct) none
        else if ct.isText then .present s (some ct) none
        else
          match b64decode s with
          | some bytes => .present bytes none none
          | none => .present s none none
    | .null => .null
    | other => .present (render other) none none
  | none => .missing

/-- `body_from_json` (`json_utils.rs` lines 151-194): the content-type scan
runs first (its `kv.1[0]` panic, modelled as an error, aborts the whole
call), then the body field is matched. -/
def bodyFromJson (render : Json → String) (parseCT : String → Option CTInfo)
    (detect : String → Option CTInfo) (jsonParsableOk : String → Bool)
    (b64decode : String → Option String)
    (request : Json) (fieldname : String)
    (headers : Option (List (String × List String))) :
    Except String OptionalBody :=
  match contentTypeFromHeaders parseCT headers with
  | .error e => .error e
  | .ok contentTypeHdr =>
    .ok (bodyFromJsonValue render detect jsonParsableOk b64decode contentTypeHdr
      request fieldname)

/-! ## Header parsing (`pact_models::headers`) -/

/-- `SINGLE_VALUE_HEADERS` (`headers.rs` lines 2-12). -/
def SINGLE_VALUE_HEADERS : List String :=
  ["date", "accept-datetime", "if-modified-since", "if-unmodified-since",
   "expires", "retry-after", "last-modified", "set-cookie", "user-agent"]

/-- `parse_header` (`headers.rs` lines 30-36): single-value headers keep the
trimmed value whole; any other header value is split on commas with each part
trimmed. -/
def parseHeader (name : String) (value : String) : List String :=
  if SINGLE_VALUE_HEADERS.contains (asciiLower name) then [rustTrim value]
  else (splitStr ',' value).map rustTrim

/-! ## Query strings (`pact_models::query_strings`) -/

/-- Value of a hexadecimal digit. -/
def hexDigitVal (c : Char) : Option Nat :=
  if c.isDigit then some (c.toNat - 48)
  else if 'a' ≤ c ∧ c ≤ 'f' then some (c.toNat - 87)
  else if 'A' ≤ c ∧ c ≤ 'F' then some (c.toNat - 55)
  else none

/-- `hex::FromHex` on a two-character string: one byte. -/
def hexPairVal (c1 c2 : Char) : Option Nat :=
  match hexDigitVal c1, hexDigitVal c2 with
  | some h, some l => some (h * 16 + l)
  | _, _ => none

/-- The byte-building loop of `decode_query` (`query_strings.rs` lines
12-55): percent-escapes decode to a byte (invalid hex keeps the literal
characters), plus becomes a space, and any other character is pushed as
`c as u8` (truncation to the low byte). -/
def decodeQueryBytes : List Char → List Nat
  | [] => []
  | c :: rest =>
    if c = '%' then
      match rest with
      | v1 :: v2 :: rest2 =>
        match hexPairVal v1 v2 with
        | some b => b :: decodeQueryBytes rest2
        | none => 37 :: v1.toNat % 256 :: v2.toNat % 256 :: decodeQueryBytes rest2
      | [v1] => [37, v1.toNat % 256]
      | [] => [37]
    else if c = '+' then 32 :: decodeQueryBytes rest
    else c.toNat % 256 :: decodeQueryBytes rest

/-- `std::str::from_utf8`: strict UTF-8 validation (shortest-form encodings
only, surrogates rejected). -/
def utf8Decode : List Nat → Option (List Char)
  | [] => some []
  | b :: rest =>
    if b < 128 then
      match utf8Decode rest with
      | some cs => some (Char.ofNat b :: cs)
      | none => none
    else if b < 194 then none
    else if b < 224 then
      match rest with
      | c1 :: rest2 =>
        if 128 ≤ c1 ∧ c1 ≤ 191 then
          match utf8Decode rest2 with
          | some cs => some (Char.ofNat ((b - 192) * 64 + (c1 - 128)) :: cs)
          | none => none
        else none
      | [] => none
    else if b < 240 then
      match rest with
      | c1 :: c2 :: rest2 =>
        let lo1 : Nat := if b = 224 then 160 else 128
        let hi1 : Nat := if b = 237 then 159 else 191
        if lo1 ≤ c1 ∧ c1 ≤ hi1 ∧ 128 ≤ c2 ∧ c2 ≤ 191 then
          match utf8Decode rest2 with
          | some cs =>
            some (Char.ofNat ((b - 224) * 4096 + (c1 - 128) * 64 + (c2 - 128)) :: cs)
          | none => none
        else none
      | _ => none
    else if b < 245 then
      match rest with
      | c1 :: c2 :: c3 :: rest2 =>
        let lo1 : Nat := if b = 240 then 144 else 128
        let hi1 : Nat := if b = 244 then 143 else 191
        if lo1 ≤ c1 ∧ c1 ≤ hi1 ∧ 128 ≤ c2 ∧ c2 ≤ 191 ∧ 128 ≤ c3 ∧ c3 ≤ 191 then
          match utf8Decode rest2 with
          | some cs =>
            some (Char.ofNat
              ((b - 240) * 262144 + (c1 - 128) * 4096 + (c2 - 128) * 64 + (c3 - 128)) :: cs)
          | none => none
        else none
      | _ => none
    else none

/-- `decode_query` (`query_strings.rs` lines 12-63): build the byte buffer,
then require it to be valid UTF-8. -/
def decodeQuery (query : String) : Except String String :=
  match utf8Decode (decodeQueryBytes query.data) with
  | some cs => .ok ⟨cs⟩
  | none => .error "Failed to decode to UTF-8"

/-- `decode_query(x).unwrap_or_else(|_| x.to_owned())` as used by
`parse_query_string`. -/
def decodeQueryOr (s : String) : String :=
  match decodeQuery s with
  | .ok d => d
  | .error _ => s

/-- Rust `str::splitn(2, '=')`: the text before the first `=` and, when one
occurs, the remainder after it. -/
def splitFirstEq : List Char → List Char × Option (List Char)
  | [] => ([], none)
  | c :: rest =>
    if c = '=' then ([], some rest)
    else
      let (a, b) := splitFirstEq rest
      (c :: a, b)

/-- `HashMap::entry(name).or_insert_with(Vec::new).push(value)`: append the
value to the entry for the name, creating it if needed. (A `HashMap` has no
observable entry order; only the per-key value order matters to the claims,
so the map is modelled as an insertion-ordered association list.) -/
def mapPush (m : List (String × List (Option String))) (k : String)
    (v : Option String) : List (String × List (Option String)) :=
  match m with
  | [] => [(k, [v])]
  | (k0, vs) :: rest =>
    if k0 = k then (k0, vs ++ [v]) :: rest
    else (k0, vs) :: mapPush rest k v

/-- The fold step of `parse_query_string` (`query_strings.rs` lines 94-114):
empty name-value chunks are skipped; the name and value are percent-decoded
(falling back to the raw text on decode failure); a chunk without `=` yields
a `None` value. -/
def queryFoldStep (m : List (String × List (Option String))) (kv : String) :
    List (String × List (Option String)) :=
  if kv = "" then m
  else
    let (rawName, rawValue) := splitFirstEq kv.data
    let name := decodeQueryOr ⟨rawName⟩
    let value := rawValue.map (fun v => decodeQueryOr ⟨v⟩)
    mapPush m name value

/-- `parse_query_string` (`query_strings.rs` lines 92-119). -/
def parseQueryString (query : String) :
    Option (List (String × List (Option String))) :=
  if query ≠ "" then some ((splitStr '&' query).foldl queryFoldStep [])
  else none

/-- Values recorded for a parameter name (empty list when absent). -/
def queryLookup (m : List (String × List (Option String))) (name : String) :
    List (Option String) :=
  match m.find? (fun kv => kv.1 = name) with
  | some kv => kv.2
  | none => []

/-! ## MIME multipart matching (`pact_matching::binary_utils`) -/

/-- Modelled from the spec: the `Mismatch` sum of §4.8 (defined in
`pact_matching/src/lib.rs`, which is missing from the sources); byte payloads
are modelled as strings. -/
inductive Mismatch where
  | methodMismatch (expected actual : String)
  | pathMismatch (expected actual mismatch : String)
  | statusMismatch (expected actual : Nat) (mismatch : String)
  | queryMismatch (parameter expected actual mismatch : String)
  | headerMismatch (key expected actual mismatch : String)
  | bodyTypeMismatch (expected actual mismatch : String)
      (expectedBody actualBody : Option String)
  | bodyMismatch (path : String) (expected actual : Option String)
      (mismatch : String)
  | metadataMismatch (key expected actual mismatch : String)
deriving DecidableEq, Repr

/-- The name/index view of a parsed `MimePart` (`binary_utils.rs` lines
166-186); the field/file payloads are opaque to the part-selection loop
embedded here. -/
structure MimePartView where
  index : Nat
  name : String
deriving DecidableEq, Repr

/-- The part-matching message of the expected-parse failure branch. -/
def expectedMultipartParseError (e : String) : String :=
  "Failed to parse the expected body as a MIME multipart body: " ++
    ⟨[quoteChar]⟩ ++ e ++ ⟨[quoteChar]⟩

/-- The part-matching message of the actual-parse failure branch. -/
def actualMultipartParseError (e : String) : String :=
  "Failed to parse the actual body as a MIME multipart body: " ++
    ⟨[quoteChar]⟩ ++ e ++ ⟨[quoteChar]⟩

/-- The loop over expected parts (`binary_utils.rs` lines 351-377): find the
matching actual part (by name, or by index for unnamed actual parts), collect
the mismatches from `match_mime_part` (entering as the `matchPart` oracle),
and report missing parts. -/
def matchExpectedParts (matchPart : MimePartView → MimePartView → List Mismatch)
    (actualParts : List MimePartView) :
    List MimePartView → List Mismatch
  | [] => []
  | expectedPart :: rest =>
    let found := actualParts.find? fun part =>
      if part.name = "" then part.index = expectedPart.index
      else part.name = expectedPart.name
    let here :=
      match found with
      | some actualPart => matchPart expectedPart actualPart
      | none =>
        [.bodyMismatch "$" (some expectedPart.name) none
          ("Expected a MIME part " ++ ⟨[quoteChar]⟩ ++ expectedPart.name ++
            ⟨[quoteChar]⟩ ++ " but was missing")]
    here ++ matchExpectedParts matchPart actualParts rest

/-- `match_mime_multipart_inner` (`binary_utils.rs` lines 315-380). The
multipart parse results (produced by the external `multer` parser from the
bodies and the boundary parameter of the content-type header) enter as
`Except` values; `expectedBodyVal`/`actualBodyVal` are the raw body bytes
used in the mismatch reports. A parse failure of either side is reported as
a `BodyMismatch` at path `$` and the part loop is skipped. -/
def matchMimeMultipartInner
    (matchPart : MimePartView → MimePartView → List Mismatch)
    (expectedBodyVal actualBodyVal : Option String)
    (expectedParts actualParts : Except String (List MimePartView)) :
    List Mismatch :=
  match expectedParts, actualParts with
  | .error e1, .error e2 =>
    [.bodyMismatch "$" expectedBodyVal actualBodyVal (expectedMultipartParseError e1),
     .bodyMismatch "$" expectedBodyVal actualBodyVal (actualMultipartParseError e2)]
  | .error e1, .ok _ =>
    [.bodyMismatch "$" expectedBodyVal actualBodyVal (expectedMultipartParseError e1)]
  | .ok _, .error e2 =>
    [.bodyMismatch "$" expectedBodyVal actualBodyVal (actualMultipartParseError e2)]
  | .ok eps, .ok aps => matchExpectedParts matchPart aps eps

/-- `match_mime_multipart` (`binary_utils.rs` lines 246-312) with the thread
and channel plumbing modelled as a direct call: an empty mismatch list is a
success, anything else is returned through the ordinary mismatch channel
(`Err` of the mismatch vector, never a panic or fatal error). -/
def matchMimeMultipart
    (matchPart : MimePartView → MimePartView → List Mismatch)
    (expectedBodyVal actualBodyVal : Option String)
    (expectedParts actualParts : Except String (List MimePartView)) :
    Except (List Mismatch) Unit :=
  let mismatches := matchMimeMultipartInner matchPart expectedBodyVal actualBodyVal
    expectedParts actualParts
  if mismatches = [] then .ok () else .error mismatches

/-! ## Specification-side definitions

Definitions in this section transcribe the wording of the specification and
of the claims (not the code); the theorems below relate them to the embedded
source functions. -/

/-- The per-token weight table of spec §4.1: `Root` matching `$` scores 2, a
field matching its name exactly scores 2, an index matching a fragment that
parses to it scores 2, `Star` matches anything at weight 1, `StarIndex`
matches `[*]` or any numeric fragment at weight 1, anything else scores 0. -/
def specTokenWeight (t : PathToken) (fragment : String) : Nat :=
  match t with
  | .root => if fragment = "$" then 2 else 0
  | .field n => if fragment = n then 2 else 0
  | .index i => if parseUsize fragment = some i then 2 else 0
  | .star => 1
  | .starIndex => if fragment = "[*]" ∨ (parseUsize fragment).isSome then 1 else 0

/-- Field names whose rendering survives the parser: non-empty and free of
quote and backslash characters (which the renderer escapes but the parser
does not un-escape). -/
def goodFieldName (v : String) : Bool :=
  v ≠ "" && v.data.all fun c => c ≠ quoteChar && c ≠ backslashChar

/-- A non-root token acceptable in the tail of a round-trippable path. -/
def goodTailToken : PathToken → Bool
  | .root => false
  | .field v => goodFieldName v
  | .index i => decide (i < 2 ^ 64)
  | .star => true
  | .starIndex => true

/-- A legal `DocPath` token list for the round-trip property: empty, or a
root followed by tokens that render to re-parseable text. -/
def legalPath : List PathToken → Bool
  | [] => true
  | .root :: rest => rest.all goodTailToken
  | _ => false

/-- Whether a character list is empty or starts with a dot or an opening
bracket (the possible first characters of a rendered non-root token). -/
def headDotOrBracket : List Char → Bool
  | [] => true
  | c :: _ => c = '.' ∨ c = '['

/-- Whether a character list is empty or starts with a non-digit. -/
def headNotDigit : List Char → Bool
  | [] => true
  | c :: _ => !c.isDigit

/-- A parseable path whose field name contains a backslash: rendering
escapes the backslash but re-parsing keeps the escape, breaking the
round-trip. -/
def c2BadTokens : List PathToken :=
  [.root, .field ⟨['a', backslashChar, 'b']⟩]

/-- The source text `c2BadTokens` parses from. -/
def c2BadExpr : String :=
  ⟨['$', '[', quoteChar, 'a', backslashChar, 'b', quoteChar, ']']⟩

/-- The first day of the month following the date's month (time of day
preserved), the landing point of each `roll_month` forward step. -/
def firstOfNextMonth (d : PlainDT) : PlainDT :=
  if d.month < 12 then { d with month := d.month + 1, day := 1 }
  else { d with year := d.year + 1, month := 1, day := 1 }

/-- Advance a year/month pair by a number of months, calendar style. -/
def addMonthsYM : Int → Nat → Nat → Int × Nat
  | y, m, 0 => (y, m)
  | y, m, n + 1 =>
    if m < 12 then addMonthsYM y (m + 1) n else addMonthsYM (y + 1) 1 n

/-- A well-formed calendar date (month 1-12, day within the month). -/
def validDate (d : PlainDT) : Bool :=
  1 ≤ d.month ∧ d.month ≤ 12 ∧ 1 ≤ d.day ∧ d.day ≤ daysInMonth d.year d.month

/-- The scenario S6 expression
`tomorrow+ 4 years @ 3 o'clock + 40 milliseconds` (the embedded quote is
spliced in as a character). -/
def c4Expr : String :=
  ⟨("tomorrow+ 4 years @ 3 o").data ++ [quoteChar] ++ ("clock + 40 milliseconds").data⟩

/-- The promotion rank of claim C5: `String` dominates everything, then
`Decimal > Integer > Number > Boolean > Unknown`. -/
def vtRank : ValueType → Nat
  | .Unknown => 0
  | .Boolean => 1
  | .Number => 2
  | .Integer => 3
  | .Decimal => 4
  | .String => 5

/-- Promotion merge: the higher-ranked of the two value types. -/
def promoMerge (a b : ValueType) : ValueType :=
  if vtRank b ≤ vtRank a then a else b

/-- The value the specification assigns to one non-empty query chunk when
looking up a parameter name: `none`-valued for a bare key (no `=`), `some`
(possibly the empty string) for `name=v`, names and values percent-decoded
with fallback to the raw text; chunks for other names contribute nothing. -/
def specQueryEntry (name : String) (kv : String) : Option (Option String) :=
  let (rawName, rawValue) := splitFirstEq kv.data
  if decodeQueryOr ⟨rawName⟩ = name then
    some (rawValue.map fun v => decodeQueryOr ⟨v⟩)
  else none

/-- The values the specification assigns to a query parameter name: one entry
per occurrence of the name in document order. -/
def specQueryValues (q name : String) : List (Option String) :=
  ((splitStr '&' q).filter fun kv => kv ≠ "").filterMap (specQueryEntry name)

/-! ## Theorems -/

set_option maxRecDepth 40000

/-- The guarded arms of `matches_token` compute exactly the specification's
weight table. -/
theorem matchesToken_eq_spec (t : PathToken) (f : String) :
    matchesToken f t = specTokenWeight t f := by
  cases t with
  | root => rfl
  | field n => rfl
  | star => rfl
  | index i =>
    simp only [matchesToken, specTokenWeight]
    rcases h : parseUsize f with _ | j
    · simp
    · simp [Option.some.injEq, eq_comm]
  | starIndex =>
    simp only [matchesToken, specTokenWeight]
    by_cases h1 : f = "[*]"
    · simp [h1]
    · rcases h : parseUsize f with _ | j <;> simp [h1, h]

/-- The multiplication fold of `path_weight` computes the product of the
per-token weights. -/
theorem foldl_mul_weight (l : List (PathToken × String)) (a : Nat) :
    l.foldl (fun acc tf => acc * matchesToken tf.2 tf.1) a =
      a * (l.map fun tf => specTokenWeight tf.1 tf.2).prod := by
  induction l generalizing a with
  | nil => simp
  | cons hd tl ih =>
    rw [List.foldl_cons, ih, List.map_cons, List.prod_cons, matchesToken_eq_spec]
    ring

/-- C1: for every token list and concrete path, `path_weight` returns the
product of the per-token weights of the specification's table (Root/field/
index matches score 2, star matches score 1, star-index matches `[*]` or a
numeric fragment at 1, everything else 0) paired with the token count, and
the weight is 0 whenever the concrete path is shorter than the token list. -/
theorem path_weight_product (tokens : List PathToken) (path : List String) :
    pathWeight tokens path =
      (if tokens.length ≤ path.length then
          ((tokens.zip path).map fun tf => specTokenWeight tf.1 tf.2).prod
        else 0,
        tokens.length) := by
  unfold pathWeight
  simp only [ge_iff_le]
  by_cases h : tokens.length ≤ path.length
  · simp [h, foldl_mul_weight]
  · simp [h]

/-- C4: evaluating the scenario S6 expression
`tomorrow+ 4 years @ 3 o'clock + 40 milliseconds` against the base instant
2000-01-01T10:00Z yields exactly 2004-01-02T15:00:00.040Z. -/
theorem datetime_expression_s6 :
    executeDatetimeExpression ⟨2000, 1, 1, 10, 0, 0, 0⟩ c4Expr =
      .ok ⟨2004, 1, 2, 15, 0, 0, 40⟩ := by
  rfl

/-- C5: merging two matching-rule definitions appends the rule lists in
order, keeps the earlier non-empty example value, keeps the earlier
generator, and merges the value types by promotion (`String` dominates, then
`Decimal > Integer > Number > Boolean > Unknown`). -/
theorem matching_rule_definition_merge (a b : MatchingRuleDefinition) :
    (a.merge b).rules = a.rules ++ b.rules ∧
    (a.value ≠ "" → b.value ≠ "" → (a.merge b).value = a.value) ∧
    (∀ g g2, a.generator = some g → b.generator = some g2 →
      (a.merge b).generator = some g) ∧
    (a.merge b).value_type = promoMerge a.value_type b.value_type := by
  obtain ⟨va, ta, ra, ga⟩ := a
  obtain ⟨vb, tb, rb, gb⟩ := b
  refine ⟨rfl, ?_, ?_, ?_⟩
  · intro h1 _
    simp only [MatchingRuleDefinition.value] at h1
    simp [MatchingRuleDefinition.merge, MatchingRuleDefinition.value, h1]
  · intro g g2 hg hg2
    simp only [MatchingRuleDefinition.generator] at hg hg2
    simp [MatchingRuleDefinition.merge, MatchingRuleDefinition.generator, hg, hg2,
      Option.or]
  · cases ta <;> cases tb <;> rfl

/-- Witness for C5 at concrete definitions: both sides carry a non-empty
value and a generator; the merge keeps the first value and generator, appends
the rules, and promotes `Integer` with `Decimal` to `Decimal`. -/
theorem matching_rule_definition_merge_witness :
    (MatchingRuleDefinition.mk "1" .Integer [.rule .integer]
        (some (.randomInt 0 10))).value ≠ "" ∧
    (MatchingRuleDefinition.mk "2.3" .Decimal [.rule .decimal]
        (some (.randomDecimal 4))).value ≠ "" ∧
    ((MatchingRuleDefinition.mk "1" .Integer [.rule .integer]
        (some (.randomInt 0 10))).merge
      (MatchingRuleDefinition.mk "2.3" .Decimal [.rule .decimal]
        (some (.randomDecimal 4)))).value = "1" ∧
    ((MatchingRuleDefinition.mk "1" .Integer [.rule .integer]
        (some (.randomInt 0 10))).merge
      (MatchingRuleDefinition.mk "2.3" .Decimal [.rule .decimal]
        (some (.randomDecimal 4)))).generator = some (.randomInt 0 10) ∧
    ((MatchingRuleDefinition.mk "1" .Integer [.rule .integer]
        (some (.randomInt 0 10))).merge
      (MatchingRuleDefinition.mk "2.3" .Decimal [.rule .decimal]
        (some (.randomDecimal 4)))).value_type = .Decimal :=
  ⟨by decide, by decide,
    (matching_rule_definition_merge _ _).2.1 (by decide) (by decide),
    (matching_rule_definition_merge _ _).2.2.1 _ _ rfl rfl,
    ((matching_rule_definition_merge _ _).2.2.2).trans rfl⟩

/-- C7: a header whose lower-cased name is in the closed single-value set is
returned whole (trimmed); any other header value is split on commas with the
parts trimmed; `user-agent` is in the set, so a user-agent value containing
commas is never split. -/
theorem parse_header_single_value :
    (∀ name value, SINGLE_VALUE_HEADERS.contains (asciiLower name) = true →
      parseHeader name value = [rustTrim value]) ∧
    (∀ name value, SINGLE_VALUE_HEADERS.contains (asciiLower name) = false →
      parseHeader name value = (splitStr ',' value).map rustTrim) ∧
    SINGLE_VALUE_HEADERS.contains "user-agent" = true ∧
    (∀ value, (parseHeader "User-Agent" value).length = 1) := by
  refine ⟨?_, ?_, by decide, ?_⟩
  · intro name value h
    have h' : asciiLower name ∈ SINGLE_VALUE_HEADERS := by simpa using h
    simp [parseHeader, h']
  · intro name value h
    have h' : asciiLower name ∉ SINGLE_VALUE_HEADERS := by simpa using h
    simp [parseHeader, h']
  · intro value
    have h' : asciiLower "User-Agent" ∈ SINGLE_VALUE_HEADERS := by decide
    simp [parseHeader, h']

/-- Witness for C7: the user-agent header keeps a comma-bearing value as a
single value. -/
theorem parse_header_single_value_witness :
    SINGLE_VALUE_HEADERS.contains (asciiLower "User-Agent") = true ∧
    parseHeader "User-Agent" "Mozilla/5.0 (X11, like Gecko)" =
      ["Mozilla/5.0 (X11, like Gecko)"] :=
  ⟨by decide,
    (parse_header_single_value.1 "User-Agent" "Mozilla/5.0 (X11, like Gecko)"
      (by decide)).trans (by decide)⟩

/-- C9: when either side of a MIME multipart comparison fails to parse, the
failure is reported as a single `BodyMismatch` at path `$` inside the
ordinary result (one mismatch per failing side, both listed when both fail),
and the wrapper returns it through the mismatch channel rather than a fatal
error. -/
theorem multipart_parse_failure_reporting
    (matchPart : MimePartView → MimePartView → List Mismatch)
    (eb ab : Option String) (e1 e2 : String) (parts : List MimePartView) :
    matchMimeMultipartInner matchPart eb ab (.error e1) (.ok parts) =
      [.bodyMismatch "$" eb ab (expectedMultipartParseError e1)] ∧
    matchMimeMultipartInner matchPart eb ab (.ok parts) (.error e2) =
      [.bodyMismatch "$" eb ab (actualMultipartParseError e2)] ∧
    matchMimeMultipartInner matchPart eb ab (.error e1) (.error e2) =
      [.bodyMismatch "$" eb ab (expectedMultipartParseError e1),
       .bodyMismatch "$" eb ab (actualMultipartParseError e2)] ∧
    matchMimeMultipart matchPart eb ab (.error e1) (.ok parts) =
      .error [.bodyMismatch "$" eb ab (expectedMultipartParseError e1)] := by
  refine ⟨rfl, rfl, rfl, ?_⟩
  simp [matchMimeMultipart, matchMimeMultipartInner]

/-- C10: `DocPath` equality compares only the rendered expression string, the
hash is a function of the expression string alone, and two paths with equal
token lists but different texts (one parsed from `a.b` with the implied root,
one from `$.a.b`) are unequal. -/
theorem docpath_identity_by_expr :
    (∀ p q : DocPath, docPathEq p q = true ↔ p.expr = q.expr) ∧
    (∀ hasher (p : DocPath), docPathHash hasher p = hasher p.expr) ∧
    (∃ p q : DocPath, docPathNew "a.b" = .ok p ∧ docPathNew "$.a.b" = .ok q ∧
      p.path_tokens = q.path_tokens ∧ docPathEq p q = false) := by
  refine ⟨?_, fun _ _ => rfl, ?_⟩
  · intro p q
    simp [docPathEq]
  · exact ⟨⟨[.root, .field "a", .field "b"], "a.b"⟩,
      ⟨[.root, .field "a", .field "b"], "$.a.b"⟩,
      by decide, by decide, rfl, by decide⟩

/-- The body-field match alone satisfies the three marker equivalences for
every content-type argument and every choice of oracles. -/
theorem bodyFromJsonValue_markers (render : Json → String)
    (detect : String → Option CTInfo) (jsonParsableOk : String → Bool)
    (b64decode : String → Option String) (contentTypeHdr : Option CTInfo)
    (request : Json) (fieldname : String) :
    (bodyFromJsonValue render detect jsonParsableOk b64decode contentTypeHdr
        request fieldname = .missing ↔ jsonGet request fieldname = none) ∧
    (bodyFromJsonValue render detect jsonParsableOk b64decode contentTypeHdr
        request fieldname = .null ↔ jsonGet request fieldname = some .null) ∧
    (bodyFromJsonValue render detect jsonParsableOk b64decode contentTypeHdr
        request fieldname = .empty ↔ jsonGet request fieldname = some (.str "")) := by
  rcases hv : jsonGet request fieldname with _ | v
  · simp [bodyFromJsonValue, hv]
  · cases v with
    | null => simp [bodyFromJsonValue, hv]
    | bool b => simp [bodyFromJsonValue, hv]
    | numLit t => simp [bodyFromJsonValue, hv]
    | arr items => simp [bodyFromJsonValue, hv]
    | obj entries => simp [bodyFromJsonValue, hv]
    | str s =>
      by_cases hs : s = ""
      · subst hs; simp [bodyFromJsonValue, hv]
      · have hpres : ∃ body ct hint,
            bodyFromJsonValue render detect jsonParsableOk b64decode contentTypeHdr
              request fieldname = .present body ct hint := by
          simp only [bodyFromJsonValue, hv]
          rw [if_neg hs]
          split_ifs
          · exact ⟨_, _, _, rfl⟩
          · exact ⟨_, _, _, rfl⟩
          · exact ⟨_, _, _, rfl⟩
          · rcases b64decode s with _ | bs
            · exact ⟨_, _, _, rfl⟩
            · exact ⟨_, _, _, rfl⟩
        obtain ⟨body, ct, hint, hp⟩ := hpres
        simp [hp, hs]

/-- C6 (amended): whenever the content-type scan does not hit its
out-of-bounds panic (the content-type header, if present, carries at least
one value), `body_from_json` returns `Missing` exactly when the field is
absent, `Null` exactly when the field holds JSON null, and `Empty` exactly
when the field holds the empty string — for every choice of the external
content-type, JSON-parse and base-64 oracles. -/
theorem body_from_json_markers (render : Json → String)
    (parseCT : String → Option CTInfo) (detect : String → Option CTInfo)
    (jsonParsableOk : String → Bool) (b64decode : String → Option String)
    (request : Json) (fieldname : String)
    (headers : Option (List (String × List String)))
    (cth : Option CTInfo)
    (hct : contentTypeFromHeaders parseCT headers = .ok cth) :
    (bodyFromJson render parseCT detect jsonParsableOk b64decode request fieldname headers
        = .ok .missing ↔ jsonGet request fieldname = none) ∧
    (bodyFromJson render parseCT detect jsonParsableOk b64decode request fieldname headers
        = .ok .null ↔ jsonGet request fieldname = some .null) ∧
    (bodyFromJson render parseCT detect jsonParsableOk b64decode request fieldname headers
        = .ok .empty ↔ jsonGet request fieldname = some (.str "")) := by
  have hmk := bodyFromJsonValue_markers render detect jsonParsableOk b64decode cth
    request fieldname
  simp only [bodyFromJson, hct, Except.ok.injEq]
  exact hmk

/-- Witness for C6 at a concrete request: header scan succeeds with no
content-type header, the field `body` holds JSON null, and the result is
`Null` and not `Missing` or `Empty`. -/
theorem body_from_json_markers_witness :
    contentTypeFromHeaders (fun _ => none) none = .ok none ∧
    (bodyFromJson (fun _ => "") (fun _ => none) (fun _ => none) (fun _ => false)
        (fun _ => none) (.obj [("body", .null)]) "body" none = .ok .null ↔
      jsonGet (.obj [("body", .null)]) "body" = some .null) :=
  ⟨rfl,
    (body_from_json_markers (fun _ => "") (fun _ => none) (fun _ => none)
      (fun _ => false) (fun _ => none) (.obj [("body", .null)]) "body" none
      none rfl).2.1⟩

/-- Counterexample for C6 as stated: with a decodable pact headers object
carrying `"content-type": []` (which `headers_from_json` maps to an empty
value vector), `body_from_json` panics on the `kv.1[0]` indexing before ever
looking at the body field, so it does not return `Missing` even though the
field is absent. -/
theorem body_from_json_panic_counterexample :
    bodyFromJson (fun _ => "") (fun _ => none) (fun _ => none) (fun _ => false)
        (fun _ => none) (.obj []) "body" (some [("content-type", [])]) =
      .error "panic: index out of bounds: the len is 0 but the index is 0" ∧
    jsonGet (.obj []) "body" = none ∧
    bodyFromJson (fun _ => "") (fun _ => none) (fun _ => none) (fun _ => false)
        (fun _ => none) (.obj []) "body" (some [("content-type", [])]) ≠
      .ok .missing := by
  refine ⟨rfl, rfl, ?_⟩
  intro h
  exact absurd h (by simp [bodyFromJson, contentTypeFromHeaders, asciiLower])

/-- `daysInMonth` is at least 1. -/
theorem daysInMonth_pos (y : Int) (m : Nat) : 1 ≤ daysInMonth y m := by
  unfold daysInMonth
  split <;> first | omega | (split <;> omega)

/-- `daysInMonth` is at most 31. -/
theorem daysInMonth_le (y : Int) (m : Nat) : daysInMonth y m ≤ 31 := by
  unfold daysInMonth
  split <;> first | omega | (split <;> omega)

/-- With enough fuel (a month is at most 31 days), the `roll_month` stepping
loop lands on the first day of the next month. -/
theorem stepMonthFwdGo_spec :
    ∀ fuel (d : PlainDT), validDate d = true →
      daysInMonth d.year d.month - d.day < fuel →
      stepMonthFwdGo fuel d = firstOfNextMonth d := by
  intro fuel
  induction fuel with
  | zero => intro d _ h2; omega
  | succ f ih =>
    intro d h1 h2
    simp only [validDate, Bool.and_eq_true, decide_eq_true_eq] at h1
    by_cases hlt : d.day < daysInMonth d.year d.month
    · have hd' : nextDay d = { d with day := d.day + 1 } := by
        simp [nextDay, hlt]
      have hmonth : ({ d with day := d.day + 1 } : PlainDT).month = d.month := rfl
      simp only [stepMonthFwdGo, hd', hmonth, if_pos]
      have hvalid : validDate { d with day := d.day + 1 } = true := by
        simp only [validDate, decide_eq_true_eq]
        show 1 ≤ d.month ∧ d.month ≤ 12 ∧ 1 ≤ d.day + 1 ∧
          d.day + 1 ≤ daysInMonth d.year d.month
        omega
      have hmeasure : daysInMonth ({ d with day := d.day + 1 } : PlainDT).year
          ({ d with day := d.day + 1 } : PlainDT).month -
          ({ d with day := d.day + 1 } : PlainDT).day < f := by
        show daysInMonth d.year d.month - (d.day + 1) < f
        omega
      rw [ih _ hvalid hmeasure]
      simp [firstOfNextMonth]
    · by_cases hm : d.month < 12
      · have hd' : nextDay d = { d with month := d.month + 1, day := 1 } := by
          simp [nextDay, hlt, hm]
        have hmonth : ({ d with month := d.month + 1, day := 1 } : PlainDT).month ≠ d.month := by
          show d.month + 1 ≠ d.month
          omega
        simp only [stepMonthFwdGo, hd', if_neg hmonth]
        simp [firstOfNextMonth, hm]
      · have hd' : nextDay d = { d with year := d.year + 1, month := 1, day := 1 } := by
          simp [nextDay, hlt, hm]
        have hmonth : ({ d with year := d.year + 1, month := 1, day := 1 } : PlainDT).month
            ≠ d.month := by
          show 1 ≠ d.month
          omega
        simp only [stepMonthFwdGo, hd', if_neg hmonth]
        simp [firstOfNextMonth, hm]

/-- The first of the next month is a valid date. -/
theorem firstOfNextMonth_valid (d : PlainDT) (h : validDate d = true) :
    validDate (firstOfNextMonth d) = true := by
  simp only [validDate, decide_eq_true_eq] at h
  unfold firstOfNextMonth
  by_cases hm : d.month < 12
  · simp only [if_pos hm, validDate, decide_eq_true_eq]
    exact ⟨by omega, by omega, by omega, daysInMonth_pos _ _⟩
  · simp only [if_neg hm, validDate, decide_eq_true_eq]
    exact ⟨by omega, by omega, by omega, daysInMonth_pos _ _⟩

/-- `stepMonthFwd` (fuel 32) computes the first of the next month on valid
dates. -/
theorem stepMonthFwd_spec (d : PlainDT) (h : validDate d = true) :
    stepMonthFwd d = firstOfNextMonth d := by
  have := daysInMonth_le d.year d.month
  have h' := h
  simp only [validDate, decide_eq_true_eq] at h'
  exact stepMonthFwdGo_spec 32 d h (by omega)

/-- Iterating the month step `n + 1` times advances the year/month pair by
`n + 1` calendar months and lands on day 1 (time of day preserved). -/
theorem rollMonthIterFwd_spec :
    ∀ n (d : PlainDT), validDate d = true →
      rollMonthIterFwd (n + 1) d =
        ⟨(addMonthsYM d.year d.month (n + 1)).1, (addMonthsYM d.year d.month (n + 1)).2,
          1, d.hour, d.minute, d.second, d.millis⟩ := by
  intro n
  induction n with
  | zero =>
    intro d h
    show rollMonthIterFwd 0 (stepMonthFwd d) = _
    rw [stepMonthFwd_spec d h]
    simp only [rollMonthIterFwd]
    unfold firstOfNextMonth addMonthsYM
    by_cases hm : d.month < 12
    · simp [hm, addMonthsYM]
    · simp [hm, addMonthsYM]
  | succ k ih =>
    intro d h
    show rollMonthIterFwd (k + 1) (stepMonthFwd d) = _
    rw [stepMonthFwd_spec d h, ih _ (firstOfNextMonth_valid d h)]
    unfold firstOfNextMonth
    by_cases hm : d.month < 12
    · simp only [if_pos hm]
      have : addMonthsYM d.year d.month (k + 1 + 1) = addMonthsYM d.year (d.month + 1) (k + 1) := by
        conv_lhs => rw [show k + 1 + 1 = (k + 1) + 1 from rfl, addMonthsYM]
        rw [if_pos hm]
      rw [this]
    · simp only [if_neg hm]
      have : addMonthsYM d.year d.month (k + 1 + 1) = addMonthsYM (d.year + 1) 1 (k + 1) := by
        conv_lhs => rw [show k + 1 + 1 = (k + 1) + 1 from rfl, addMonthsYM]
        rw [if_neg hm]
      rw [this]

/-- C3 (amended): for every valid base date and positive month count, the
rolling month adjustment advances to the target month and restores the
original day of month when it exists there; when the target month is too
short, `with_day` fails and the date stays at the first day of the target
month (so `+ 1 month` from January 31 yields February 1, not February
28/29). -/
theorem roll_month_day_preservation (d : PlainDT) (n : Nat) (h1 : 1 ≤ n)
    (h2 : validDate d = true) :
    rollMonth d (n : Int) =
      (if d.day ≤ daysInMonth (addMonthsYM d.year d.month n).1 (addMonthsYM d.year d.month n).2
        then ⟨(addMonthsYM d.year d.month n).1, (addMonthsYM d.year d.month n).2, d.day,
          d.hour, d.minute, d.second, d.millis⟩
        else ⟨(addMonthsYM d.year d.month n).1, (addMonthsYM d.year d.month n).2, 1,
          d.hour, d.minute, d.second, d.millis⟩) := by
  obtain ⟨k, rfl⟩ : ∃ k, n = k + 1 := ⟨n - 1, by omega⟩
  have hpos : (0 : Int) < ((k + 1 : Nat) : Int) := by positivity
  have hvd := h2
  simp only [validDate, decide_eq_true_eq] at hvd
  unfold rollMonth
  rw [if_pos hpos]
  rw [show ((k + 1 : Nat) : Int).toNat = k + 1 from by simp]
  rw [rollMonthIterFwd_spec k d h2]
  unfold withDayOrKeep
  by_cases hday :
      d.day ≤ daysInMonth (addMonthsYM d.year d.month (k + 1)).1 (addMonthsYM d.year d.month (k + 1)).2
  · rw [if_pos hday, if_pos ⟨by omega, hday⟩]
  · rw [if_neg hday, if_neg (fun hc => hday hc.2)]

/-- Witness for C3 at January 31, 2001: rolling one month forward yields
February 1, 2001. -/
theorem roll_month_day_preservation_witness :
    1 ≤ 1 ∧ validDate ⟨2001, 1, 31, 10, 0, 0, 0⟩ = true ∧
    rollMonth ⟨2001, 1, 31, 10, 0, 0, 0⟩ ((1 : Nat) : Int) = ⟨2001, 2, 1, 10, 0, 0, 0⟩ :=
  ⟨by decide, by decide,
    (roll_month_day_preservation ⟨2001, 1, 31, 10, 0, 0, 0⟩ 1 (by decide) (by decide)).trans
      (by decide)⟩

/-- Counterexample for C3 as stated: the MONTH case of a date-expression
adjustment applied to January 31, 2001 (not a leap year) yields February 1,
which is neither February 28 nor February 29. -/
theorem roll_month_counterexample :
    forwardDateBy ⟨.MONTH, 1, .PLUS⟩ ⟨2001, 1, 31, 10, 0, 0, 0⟩ =
      .ok ⟨2001, 2, 1, 10, 0, 0, 0⟩ ∧
    forwardDateBy ⟨.MONTH, 1, .PLUS⟩ ⟨2001, 1, 31, 10, 0, 0, 0⟩ ≠
      .ok ⟨2001, 2, 28, 10, 0, 0, 0⟩ ∧
    forwardDateBy ⟨.MONTH, 1, .PLUS⟩ ⟨2001, 1, 31, 10, 0, 0, 0⟩ ≠
      .ok ⟨2001, 2, 29, 10, 0, 0, 0⟩ ∧
    isLeapYear 2001 = false := by
  refine ⟨rfl, ?_, ?_, rfl⟩ <;> decide

/-- Pushing a value into the query map appends it to the values of its key
and leaves every other key unchanged. -/
theorem queryLookup_mapPush (m : List (String × List (Option String)))
    (k : String) (v : Option String) (name : String) :
    queryLookup (mapPush m k v) name =
      if k = name then queryLookup m name ++ [v] else queryLookup m name := by
  induction m with
  | nil =>
    by_cases h : k = name <;> simp [mapPush, queryLookup, List.find?, h]
  | cons hd tl ih =>
    obtain ⟨k0, vs⟩ := hd
    by_cases hk : k0 = k
    · subst hk
      by_cases hn : k0 = name
      · subst hn
        simp [mapPush, queryLookup, List.find?]
      · simp [mapPush, queryLookup, List.find?, hn,
          show ¬(k0 = name) from hn]
    · by_cases hn : k0 = name
      · have hkn : ¬(k = name) := fun h => hk (hn.trans h.symm)
        have hnk : ¬(name = k) := fun h => hkn h.symm
        simp [mapPush, queryLookup, List.find?, hk, hn, hkn, hnk]
      · simp [mapPush, queryLookup, List.find?, hk, hn] at ih ⊢
        rw [ih]

/-- Folding the query chunks accumulates, for every name, exactly the
specification's per-chunk values in document order. -/
theorem queryFold_lookup (pieces : List String) :
    ∀ (m0 : List (String × List (Option String))) (name : String),
      queryLookup (pieces.foldl queryFoldStep m0) name =
        queryLookup m0 name ++
          (pieces.filter fun kv => kv ≠ "").filterMap (specQueryEntry name) := by
  induction pieces with
  | nil => intro m0 name; simp
  | cons p rest ih =>
    intro m0 name
    simp only [List.foldl_cons]
    by_cases hp : p = ""
    · subst hp
      rw [show queryFoldStep m0 "" = m0 from rfl, ih]
      simp
    · have hstep : queryFoldStep m0 p =
          mapPush m0 (decodeQueryOr ⟨(splitFirstEq p.data).1⟩)
            ((splitFirstEq p.data).2.map fun v => decodeQueryOr ⟨v⟩) := by
        simp [queryFoldStep, hp]
      rw [hstep, ih, queryLookup_mapPush]
      have hfilter : (p :: rest).filter (fun kv => kv ≠ "") =
          p :: rest.filter (fun kv => kv ≠ "") := by
        simp [List.filter, hp]
      rw [hfilter, List.filterMap_cons]
      by_cases hname : decodeQueryOr ⟨(splitFirstEq p.data).1⟩ = name
      · rw [if_pos hname]
        have hentry : specQueryEntry name p =
            some ((splitFirstEq p.data).2.map fun v => decodeQueryOr ⟨v⟩) := by
          simp [specQueryEntry, hname]
        rw [hentry]
        simp
      · rw [if_neg hname]
        have hentry : specQueryEntry name p = none := by
          simp [specQueryEntry, hname]
        rw [hentry]

/-- C8: for every non-empty query string, `parse_query_string` succeeds and
maps each parameter name to its occurrences in document order, with a bare
key (no `=`) recorded as the null value `none` — distinct from the
empty-string value `some ""` produced by `name=` — and repeated names
accumulating their values in order of appearance. -/
theorem parse_query_string_values (q : String) (h : q ≠ "") (name : String) :
    ∃ m, parseQueryString q = some m ∧ queryLookup m name = specQueryValues q name := by
  refine ⟨(splitStr '&' q).foldl queryFoldStep [], ?_, ?_⟩
  · simp [parseQueryString, h]
  · rw [queryFold_lookup]
    simp [queryLookup, specQueryValues]

/-- Witness for C8: in `a&a=&b=1` the parameter `a` collects, in order, the
null value of the bare key and the empty-string value of `a=`. -/
theorem parse_query_string_values_witness :
    ("a&a=&b=1" : String) ≠ "" ∧
    (∃ m, parseQueryString "a&a=&b=1" = some m ∧
      queryLookup m "a" = specQueryValues "a&a=&b=1" "a") ∧
    specQueryValues "a&a=&b=1" "a" = [none, some ""] :=
  ⟨by decide, parse_query_string_values "a&a=&b=1" (by decide) "a", by decide⟩

/-- `decDigitsVal` distributes over appending, threading the accumulator. -/
theorem decDigitsVal_append (l1 l2 : List Char) :
    ∀ acc, decDigitsVal (l1 ++ l2) acc =
      match decDigitsVal l1 acc with
      | some a => decDigitsVal l2 a
      | none => none := by
  induction l1 with
  | nil => intro acc; rfl
  | cons c cs ih =>
    intro acc
    by_cases hc : c.isDigit <;> simp [decDigitsVal, hc, ih]

/-- A decimal digit character produced by the renderer: digit class and
numeric value. -/
theorem digitChar_spec (n : Nat) (h : n < 10) :
    (Char.ofNat (48 + n)).isDigit = true ∧ (Char.ofNat (48 + n)).toNat = 48 + n := by
  interval_cases n <;> exact ⟨by decide, by decide⟩

/-- The digit renderer never returns an empty list when given enough fuel. -/
theorem natDigitsGo_ne_nil (fuel n : Nat) (h : n < fuel) : natDigitsGo fuel n ≠ [] := by
  obtain ⟨f, rfl⟩ : ∃ f, fuel = f + 1 := ⟨fuel - 1, by omega⟩
  by_cases h10 : n < 10 <;> simp [natDigitsGo, h10]

/-- Every character the digit renderer produces is a decimal digit. -/
theorem natDigitsGo_digits :
    ∀ fuel n, n < fuel → ∀ c ∈ natDigitsGo fuel n, c.isDigit = true := by
  intro fuel
  induction fuel with
  | zero => intro n h; omega
  | succ f ih =>
    intro n h c hc
    by_cases h10 : n < 10
    · simp [natDigitsGo, h10] at hc
      subst hc
      exact (digitChar_spec n h10).1
    · simp only [natDigitsGo, if_neg h10, List.mem_append, List.mem_singleton] at hc
      rcases hc with hc | hc
      · have hdiv : n / 10 < f := by
          have := Nat.div_lt_self (by omega : 0 < n) (by omega : 1 < 10)
          omega
        exact ih (n / 10) hdiv c hc
      · subst hc
        exact (digitChar_spec (n % 10) (Nat.mod_lt _ (by omega))).1

/-- Parsing the rendered digits of `n` recovers `n` (with any accumulator,
which contributes at its place value). -/
theorem natDigitsGo_val :
    ∀ fuel n, n < fuel → ∀ acc,
      decDigitsVal (natDigitsGo fuel n) acc =
        some (acc * 10 ^ (natDigitsGo fuel n).length + n) := by
  intro fuel
  induction fuel with
  | zero => intro n h; omega
  | succ f ih =>
    intro n h acc
    by_cases h10 : n < 10
    · obtain ⟨hd, hv⟩ := digitChar_spec n h10
      simp [natDigitsGo, h10, decDigitsVal, hd, hv]
    · have hdiv : n / 10 < f := by
        have := Nat.div_lt_self (by omega : 0 < n) (by omega : 1 < 10)
        omega
      obtain ⟨hd, hv⟩ := digitChar_spec (n % 10) (Nat.mod_lt _ (by omega))
      rw [show natDigitsGo (f + 1) n = natDigitsGo f (n / 10) ++ [Char.ofNat (48 + n % 10)]
        from by rw [natDigitsGo]; rw [if_neg h10]]
      rw [decDigitsVal_append, ih (n / 10) hdiv acc]
      simp only [decDigitsVal, hd, if_pos, hv, List.length_append, List.length_singleton]
      have : (acc * 10 ^ (natDigitsGo f (n / 10)).length + n / 10) * 10 + (48 + n % 10 - 48) =
          acc * 10 ^ ((natDigitsGo f (n / 10)).length + 1) + n := by
        have hmod : n / 10 * 10 + n % 10 = n := by omega
        ring_nf
        omega
      rw [this]

/-- Parsing the decimal rendering of `n` yields `n`. -/
theorem natDigits_val (n : Nat) : decDigitsVal (natDigits n) 0 = some n := by
  have := natDigitsGo_val (n + 1) n (by omega) 0
  simpa [natDigits] using this

/-- Characters allowed in the tail of an `IDENT` name satisfy the parser's
identifier-character class. -/
theorem identChar_of_identTail (c : Char)
    (h : (c.isAlpha || c.isDigit || c = '_') = true) : isIdentifierChar c = true := by
  simp only [Bool.or_eq_true] at h
  simp only [isIdentifierChar, Bool.or_eq_true, decide_eq_true_eq] at *
  tauto

/-- The identifier loop consumes exactly an identifier-character run and
stops at a following dot or bracket (or the end of input). -/
theorem identifierLoop_spec (nameRest : List Char) :
    ∀ acc s, (∀ c ∈ nameRest, isIdentifierChar c = true) →
      headDotOrBracket s = true →
      identifierLoop (nameRest ++ s) acc = .ok (acc ++ nameRest, s) := by
  induction nameRest with
  | nil =>
    intro acc s _ hs
    cases s with
    | nil => simp [identifierLoop]
    | cons c rest =>
      simp only [headDotOrBracket, decide_eq_true_eq] at hs
      rcases hs with h | h <;> subst h <;> simp [identifierLoop, isIdentifierChar]
  | cons c cs ih =>
    intro acc s hid hs
    have hc : isIdentifierChar c = true := hid c (List.mem_cons_self _ _)
    rw [show (c :: cs) ++ s = c :: (cs ++ s) from rfl]
    rw [show identifierLoop (c :: (cs ++ s)) acc =
      identifierLoop (cs ++ s) (acc ++ [c]) from by simp [identifierLoop, hc]]
    rw [ih (acc ++ [c]) s (fun x hx => hid x (List.mem_cons_of_mem _ hx)) hs]
    simp

/-- The bracket-string loop consumes exactly the quote-free content up to the
closing quote. -/
theorem stringPathLoop_spec (cs : List Char) :
    ∀ c acc s, c ≠ quoteChar → (∀ x ∈ cs, x ≠ quoteChar) →
      stringPathLoop c (cs ++ (quoteChar :: s)) acc = .ok (acc ++ c :: cs, s) := by
  induction cs with
  | nil =>
    intro c acc s hc _
    rw [show ([] : List Char) ++ (quoteChar :: s) = quoteChar :: s from rfl]
    rw [show stringPathLoop c (quoteChar :: s) acc =
      stringPathLoop quoteChar s (acc ++ [c]) from by simp [stringPathLoop, hc]]
    rw [stringPathLoop.eq_def]
    simp
  | cons d ds ih =>
    intro c acc s hc hq
    rw [show (d :: ds) ++ (quoteChar :: s) = d :: (ds ++ quoteChar :: s) from rfl]
    rw [show stringPathLoop c (d :: (ds ++ quoteChar :: s)) acc =
      stringPathLoop d (ds ++ quoteChar :: s) (acc ++ [c]) from by
        simp [stringPathLoop, hc]]
    rw [ih d (acc ++ [c]) s (hq d (List.mem_cons_self _ _))
      (fun x hx => hq x (List.mem_cons_of_mem _ hx))]
    simp

/-- The index loop consumes exactly a digit run and stops at the first
non-digit (or the end of input). -/
theorem indexPathLoop_spec (digits : List Char) :
    ∀ acc s, (∀ c ∈ digits, c.isDigit = true) → headNotDigit s = true →
      indexPathLoop (digits ++ s) acc = (acc ++ digits, s) := by
  induction digits with
  | nil =>
    intro acc s _ hs
    cases s with
    | nil => simp [indexPathLoop]
    | cons c rest =>
      simp only [headNotDigit, Bool.not_eq_true'] at hs
      simp [indexPathLoop, hs]
  | cons d ds ih =>
    intro acc s hd hs
    have hdd : d.isDigit = true := hd d (List.mem_cons_self _ _)
    rw [show (d :: ds) ++ s = d :: (ds ++ s) from rfl]
    rw [show indexPathLoop (d :: (ds ++ s)) acc = indexPathLoop (ds ++ s) (acc ++ [d])
      from by simp [indexPathLoop, hdd]]
    rw [ih (acc ++ [d]) s (fun x hx => hd x (List.mem_cons_of_mem _ hx)) hs]
    simp

/-- Escaping is the identity on keys without quotes and backslashes. -/
theorem escapeKeyChars_id (l : List Char)
    (h : ∀ c ∈ l, c ≠ quoteChar ∧ c ≠ backslashChar) : escapeKeyChars l = l := by
  induction l with
  | nil => rfl
  | cons c cs ih =>
    obtain ⟨h1, h2⟩ := h c (List.mem_cons_self _ _)
    have hcond : ¬(c = backslashChar ∨ c = quoteChar) := fun hor => hor.elim h2 h1
    rw [show escapeKeyChars (c :: cs) = c :: escapeKeyChars cs from by
      simp only [escapeKeyChars]
      rw [if_neg hcond]]
    rw [ih fun x hx => h x (List.mem_cons_of_mem _ hx)]

/-- A rendered non-root token starts with a dot or an opening bracket. -/
theorem renderedTail_head (rest : List PathToken)
    (h : ∀ t ∈ rest, goodTailToken t = true) :
    headDotOrBracket ((rest.map renderToken).flatten) = true := by
  cases rest with
  | nil => rfl
  | cons t ts =>
    have ht := h t (List.mem_cons_self _ _)
    cases t with
    | root => simp [goodTailToken] at ht
    | star => simp [renderToken, headDotOrBracket]
    | starIndex => simp [renderToken, headDotOrBracket]
    | index i => simp [renderToken, headDotOrBracket]
    | field v =>
      simp only [List.map_cons, List.flatten_cons, renderToken, writeObjKeyForPath]
      by_cases hi : isIdentString v
      · simp [hi, headDotOrBracket]
      · simp [hi, headDotOrBracket]

/-- No token renders to the empty string. -/
theorem renderToken_ne_nil (t : PathToken) : renderToken t ≠ [] := by
  cases t with
  | field v =>
    simp only [renderToken, writeObjKeyForPath]
    by_cases hi : isIdentString v <;> simp [hi]
  | root => simp [renderToken]
  | index i => simp [renderToken]
  | star => simp [renderToken]
  | starIndex => simp [renderToken]

/-- After a dot, the rendered form of an identifier field parses back to that
field and stops exactly at the rest of the path. -/
theorem pathIdentifier_renderField (v : String) (s : List Char)
    (hident : isIdentString v = true) (hs : headDotOrBracket s = true) :
    pathIdentifier (v.data ++ s) = .ok (.field v, s) := by
  rcases hd : v.data with _ | ⟨c0, nameRest⟩
  · simp [isIdentString, hd] at hident
  · rw [isIdentString, hd] at hident
    simp only [Bool.and_eq_true, List.all_eq_true] at hident
    obtain ⟨hfirst, htail⟩ := hident
    have hstar : ¬(c0 = '*') := by
      intro h; subst h; simp at hfirst
    have hic : isIdentifierChar c0 = true := by
      simp only [Bool.or_eq_true, decide_eq_true_eq] at hfirst
      rcases hfirst with h | h
      · simp [isIdentifierChar, h]
      · subst h; decide
    rw [show (c0 :: nameRest) ++ s = c0 :: (nameRest ++ s) from rfl]
    rw [show pathIdentifier (c0 :: (nameRest ++ s)) = identifier c0 (nameRest ++ s) from by
      simp [pathIdentifier, hstar, hic]]
    rw [identifier,
      identifierLoop_spec nameRest [c0] s (fun c hc => identChar_of_identTail c (htail c hc)) hs]
    have : (⟨c0 :: nameRest⟩ : String) = v := by rw [← hd]
    simp [this]

/-- After an opening bracket and quote, the rendered form of a quote-free and
backslash-free non-empty field parses back to that field, consuming the
closing quote and bracket. -/
theorem bracketPath_renderField (v : String) (s : List Char)
    (hgood : goodFieldName v = true) :
    bracketPath (quoteChar :: (v.data ++ (quoteChar :: (']' :: s)))) = .ok (.field v, s) := by
  simp only [goodFieldName, Bool.and_eq_true, List.all_eq_true, decide_eq_true_eq,
    ne_eq] at hgood
  obtain ⟨hne, hchars⟩ := hgood
  rcases hd : v.data with _ | ⟨c0, cr⟩
  · exact absurd (show v = "" from congrArg String.mk hd) hne
  · have hq0 : ¬(c0 = quoteChar) := by
      have := hchars c0 (by rw [hd]; exact List.mem_cons_self _ _)
      simpa using this.1
    have hqr : ∀ x ∈ cr, x ≠ quoteChar := by
      intro x hx
      have := hchars x (by rw [hd]; exact List.mem_cons_of_mem _ hx)
      simpa using this.1
    rw [show (c0 :: cr) ++ (quoteChar :: (']' :: s)) = c0 :: (cr ++ (quoteChar :: (']' :: s)))
      from rfl]
    rw [show bracketPath (quoteChar :: (c0 :: (cr ++ (quoteChar :: (']' :: s))))) =
        match stringPath (c0 :: (cr ++ (quoteChar :: (']' :: s)))) with
        | .error e => .error e
        | .ok (tok, rem) =>
          match rem with
          | [] => .error "Unterminated brackets in path expression"
          | c2 :: rest2 =>
            if c2 ≠ ']' then .error "Unterminated brackets, found other than bracket"
            else .ok (tok, rest2) from by
      simp [bracketPath]]
    rw [show stringPath (c0 :: (cr ++ (quoteChar :: (']' :: s)))) =
        match stringPathLoop c0 (cr ++ (quoteChar :: (']' :: s))) [] with
        | .ok (id, rem) => .ok (.field ⟨id⟩, rem)
        | .error e => .error e from by simp [stringPath]]
    rw [stringPathLoop_spec cr c0 [] (']' :: s) hq0 hqr]
    have : (⟨c0 :: cr⟩ : String) = v := by rw [← hd]
    simp [this]

/-- After an opening bracket, rendered index digits parse back to that index,
consuming the closing bracket. -/
theorem bracketPath_index (i : Nat) (hi : i < 2 ^ 64) (s : List Char) :
    bracketPath (natDigits i ++ (']' :: s)) = .ok (.index i, s) := by
  rcases hd : natDigits i with _ | ⟨d, ds⟩
  · exact absurd hd (natDigitsGo_ne_nil (i + 1) i (by omega))
  · have hdig : ∀ c ∈ natDigits i, c.isDigit = true :=
      natDigitsGo_digits (i + 1) i (by omega)
    have hdd : d.isDigit = true := hdig d (by rw [hd]; exact List.mem_cons_self _ _)
    have hds : ∀ c ∈ ds, c.isDigit = true := fun c hc =>
      hdig c (by rw [hd]; exact List.mem_cons_of_mem _ hc)
    have hdq : ¬(d = quoteChar) := by
      intro h; rw [h] at hdd; exact absurd hdd (by decide)
    rw [show (d :: ds) ++ (']' :: s) = d :: (ds ++ (']' :: s)) from rfl]
    rw [show bracketPath (d :: (ds ++ (']' :: s))) =
        match indexPath (d :: (ds ++ (']' :: s))) with
        | .error e => .error e
        | .ok (tok, rem) =>
          match rem with
          | [] => .error "Unterminated brackets in path expression"
          | c2 :: rest2 =>
            if c2 ≠ ']' then .error "Unterminated brackets, found other than bracket"
            else .ok (tok, rest2) from by
      simp [bracketPath, hdq, hdd]]
    rw [show indexPath (d :: (ds ++ (']' :: s))) =
        (match indexPathLoop (ds ++ (']' :: s)) [d] with
         | (id, rem) =>
           match (match rem with
             | r :: _ =>
               if r ≠ ']' then
                 Except.error "Indexes can only consist of numbers or a star"
               else Except.ok ()
             | [] => Except.ok ()) with
           | .error e => .error e
           | .ok _ =>
             match decDigitsVal id 0 with
             | some v =>
               if v < 2 ^ 64 then .ok (.index v, rem)
               else .error "panic: index overflows usize"
             | none => .error "panic: index is not a number") from by
      simp [indexPath]]
    rw [indexPathLoop_spec ds [d] (']' :: s) hds rfl]
    have hval : decDigitsVal (d :: ds) 0 = some i := by
      rw [← hd]; exact natDigits_val i
    simp only [List.singleton_append]
    have hi' : i < 18446744073709551616 := hi
    simp [hval, hi']

/-- After an opening bracket, a star parses to `StarIndex`, consuming the
closing bracket. -/
theorem bracketPath_star (s : List Char) :
    bracketPath ('*' :: (']' :: s)) = .ok (.starIndex, s) := by
  rfl

/-- The `path_exp` loop, run on the rendering of a list of round-trippable
non-root tokens with fuel at least the input length, reproduces exactly those
tokens. -/
theorem pathExpGo_render (rest : List PathToken) :
    ∀ fuel acc, (∀ t ∈ rest, goodTailToken t = true) →
      ((rest.map renderToken).flatten).length ≤ fuel →
      pathExpGo fuel ((rest.map renderToken).flatten) acc = .ok (acc ++ rest) := by
  induction rest with
  | nil =>
    intro fuel acc _ _
    cases fuel <;> simp [pathExpGo]
  | cons t ts ih =>
    intro fuel acc hgood hfuel
    have hgt : goodTailToken t = true := hgood t (List.mem_cons_self _ _)
    have hts : ∀ x ∈ ts, goodTailToken x = true := fun x hx =>
      hgood x (List.mem_cons_of_mem _ hx)
    have hhead := renderedTail_head ts hts
    simp only [List.map_cons, List.flatten_cons] at hfuel ⊢
    have hR1 : 1 ≤ (renderToken t).length := by
      cases hRt : renderToken t with
      | nil => exact absurd hRt (renderToken_ne_nil t)
      | cons a l => simp
    rcases fuel with _ | f
    · exfalso
      simp only [List.length_append] at hfuel
      omega
    · have hfuelL : ((ts.map renderToken).flatten).length ≤ f := by
        simp only [List.length_append] at hfuel
        omega
      cases t with
      | root => simp [goodTailToken] at hgt
      | star =>
        show pathExpGo (f + 1) ('.' :: ('*' :: (ts.map renderToken).flatten)) acc = _
        rw [show pathExpGo (f + 1) ('.' :: ('*' :: (ts.map renderToken).flatten)) acc =
          pathExpGo f ((ts.map renderToken).flatten) (acc ++ [.star]) from by
            simp [pathExpGo, pathIdentifier]]
        exact (ih f (acc ++ [PathToken.star]) hts hfuelL).trans (by simp)
      | starIndex =>
        show pathExpGo (f + 1) ('[' :: ('*' :: (']' :: (ts.map renderToken).flatten))) acc = _
        rw [show pathExpGo (f + 1) ('[' :: ('*' :: (']' :: (ts.map renderToken).flatten))) acc =
          pathExpGo f ((ts.map renderToken).flatten) (acc ++ [.starIndex]) from by
            simp [pathExpGo, bracketPath_star]]
        exact (ih f (acc ++ [PathToken.starIndex]) hts hfuelL).trans (by simp)
      | index i =>
        have hi : i < 2 ^ 64 := by simpa [goodTailToken] using hgt
        rw [show (renderToken (.index i) ++ (ts.map renderToken).flatten) =
          '[' :: (natDigits i ++ (']' :: (ts.map renderToken).flatten)) from by
            simp [renderToken]]
        rw [show pathExpGo (f + 1)
            ('[' :: (natDigits i ++ (']' :: (ts.map renderToken).flatten))) acc =
          pathExpGo f ((ts.map renderToken).flatten) (acc ++ [.index i]) from by
            simp [pathExpGo, bracketPath_index i hi]]
        exact (ih f (acc ++ [PathToken.index i]) hts hfuelL).trans (by simp)
      | field v =>
        by_cases hident : isIdentString v = true
        · rw [show (renderToken (.field v) ++ (ts.map renderToken).flatten) =
            '.' :: (v.data ++ (ts.map renderToken).flatten) from by
              simp [renderToken, writeObjKeyForPath, hident]]
          rw [show pathExpGo (f + 1) ('.' :: (v.data ++ (ts.map renderToken).flatten)) acc =
            pathExpGo f ((ts.map renderToken).flatten) (acc ++ [.field v]) from by
              simp [pathExpGo, pathIdentifier_renderField v _ hident hhead]]
          exact (ih f (acc ++ [PathToken.field v]) hts hfuelL).trans (by simp)
        · have hgf : goodFieldName v = true := by simpa [goodTailToken] using hgt
          have hchars : ∀ c ∈ v.data, c ≠ quoteChar ∧ c ≠ backslashChar := by
            have := hgf
            simp only [goodFieldName, Bool.and_eq_true, List.all_eq_true,
              decide_eq_true_eq, ne_eq] at this
            intro c hc
            exact ⟨(this.2 c hc).1, (this.2 c hc).2⟩
          have hesc : escapeKeyChars v.data = v.data := escapeKeyChars_id v.data hchars
          rw [show (renderToken (.field v) ++ (ts.map renderToken).flatten) =
            '[' :: (quoteChar :: (v.data ++ (quoteChar ::
              (']' :: (ts.map renderToken).flatten)))) from by
              simp [renderToken, writeObjKeyForPath, hident, hesc]]
          rw [show pathExpGo (f + 1) ('[' :: (quoteChar :: (v.data ++ (quoteChar ::
              (']' :: (ts.map renderToken).flatten))))) acc =
            pathExpGo f ((ts.map renderToken).flatten) (acc ++ [.field v]) from by
              simp [pathExpGo, bracketPath_renderField v _ hgf]]
          exact (ih f (acc ++ [PathToken.field v]) hts hfuelL).trans (by simp)

/-- C2 (amended): parsing the rendered canonical form returns the original
token list for every legal `DocPath` whose field names are non-empty and
contain neither quote nor backslash characters (the renderer escapes those,
but the parser performs no un-escaping, so they break the round-trip) and
whose indices fit in `usize`. -/
theorem path_roundtrip_amended (tokens : List PathToken)
    (h : legalPath tokens = true) :
    parsePathExp ⟨buildExpr tokens⟩ = .ok tokens := by
  cases tokens with
  | nil => rfl
  | cons t rest =>
    cases t with
    | field v => simp [legalPath] at h
    | index i => simp [legalPath] at h
    | star => simp [legalPath] at h
    | starIndex => simp [legalPath] at h
    | root =>
      have hgood : ∀ x ∈ rest, goodTailToken x = true := by
        simpa [legalPath, List.all_eq_true] using h
      have hbuild : buildExpr (.root :: rest) = '$' :: (rest.map renderToken).flatten := by
        simp [buildExpr, renderToken]
      rw [hbuild]
      rw [show parsePathExp ⟨'$' :: (rest.map renderToken).flatten⟩ =
        pathExp ((rest.map renderToken).flatten) [.root] from by
          simp [parsePathExp]]
      rw [pathExp, pathExpGo_render rest _ [.root] hgood (le_refl _)]
      rfl

/-- Witness for C2 at a concrete legal path mixing dot fields, a bracketed
field, an index and both wildcards. -/
theorem path_roundtrip_amended_witness :
    legalPath [.root, .field "a b", .index 3, .star, .starIndex, .field "c"] = true ∧
    parsePathExp ⟨buildExpr [.root, .field "a b", .index 3, .star, .starIndex, .field "c"]⟩ =
      .ok [.root, .field "a b", .index 3, .star, .starIndex, .field "c"] :=
  ⟨by decide, path_roundtrip_amended _ (by decide)⟩

/-- Counterexample for C2 as stated: `$['a\b']` parses to a legal `DocPath`
whose field name contains a backslash; rendering escapes the backslash, and
re-parsing the rendering does not return the original tokens. -/
theorem path_roundtrip_counterexample :
    parsePathExp c2BadExpr = .ok c2BadTokens ∧
    parsePathExp ⟨buildExpr c2BadTokens⟩ ≠ .ok c2BadTokens := by
  exact ⟨by decide, by decide⟩

end PactSpec
